import Mathlib

/-!
Shallow embedding of the keysync key-material codec and record merge engine
(`otrapps/util.py` and `otrapps/gpg.py`) together with proofs of the
specification claims.

Modelling conventions:
* Python byte strings are `List Nat` with every entry below 256.
* Python bit strings (`"0101..."`) are `List Bool`.
* Arbitrary-precision Python integers are `Nat` (all key material is
  non-negative).
* Fallible Python code returns `Except Err _`; the distinct Python
  exception classes are the constructors of `Err`.
* The external pyasn1 DER codec, the standard base64 codec and the SHA-1
  digest are not part of `src/`; they are modelled from the spec
  (sections 4.1, 4.5 and the base64 boundary) as executable definitions.
-/

/-- Errors: `errors.KeyczarError msg`, `errors.Base64DecodingError`, a pyasn1
decoding error, a Python `TypeError`, a Python `ValueError` (e.g. a failed
destructuring), a dict `KeyError`, and a `binascii` error from `b64decode`. -/
inductive Err where
  | keyczarError (msg : String)
  | base64DecodingError
  | asn1Error
  | typeError
  | valueError
  | keyError (k : String)
  | binasciiError
deriving DecidableEq

/-- `BigIntToBytes` (util.py line 260): minimal big-endian byte string of an
arbitrary-precision non-negative integer; empty for 0. -/
def BigIntToBytes (n : Nat) : List Nat :=
  if h : n = 0 then [] else BigIntToBytes (n / 256) ++ [n % 256]
decreasing_by exact Nat.div_lt_self (Nat.pos_of_ne_zero h) (by norm_num)

/-- `BytesToLong` (util.py line 274): big-endian value of a byte string. -/
def BytesToLong : List Nat → Nat
  | [] => 0
  | b :: r => b * 256 ^ r.length + BytesToLong r

theorem BytesToLong_append (xs ys : List Nat) :
    BytesToLong (xs ++ ys) = BytesToLong xs * 256 ^ ys.length + BytesToLong ys := by
  induction xs with
  | nil => simp [BytesToLong]
  | cons b r ih =>
      simp only [List.cons_append, BytesToLong, ih, List.append_eq, List.length_append, pow_add]
      ring

theorem BytesToLong_BigIntToBytes (n : Nat) : BytesToLong (BigIntToBytes n) = n := by
  induction n using Nat.strong_induction_on with
  | _ n ih =>
      rw [BigIntToBytes]
      by_cases h : n = 0
      · simp [h, BytesToLong]
      · simp only [h, dite_false]
        rw [BytesToLong_append, ih (n / 256) (Nat.div_lt_self (Nat.pos_of_ne_zero h) (by norm_num))]
        simp [BytesToLong]
        omega

theorem BigIntToBytes_lt (n : Nat) : ∀ b ∈ BigIntToBytes n, b < 256 := by
  induction n using Nat.strong_induction_on with
  | _ n ih =>
      rw [BigIntToBytes]
      by_cases h : n = 0
      · simp [h]
      · simp only [h, dite_false]
        intro b hb
        rcases List.mem_append.mp hb with h1 | h1
        · exact ih (n / 256) (Nat.div_lt_self (Nat.pos_of_ne_zero h) (by norm_num)) b h1
        · simp only [List.mem_singleton] at h1
          omega

theorem BigIntToBytes_length_le : ∀ (k n : Nat), n < 256 ^ k → (BigIntToBytes n).length ≤ k := by
  intro k
  induction k with
  | zero =>
      intro n hn
      interval_cases n
      simp [BigIntToBytes]
  | succ k ih =>
      intro n hn
      rw [BigIntToBytes]
      by_cases h : n = 0
      · simp [h]
      · simp only [h, dite_false, List.length_append, List.length_singleton]
        have : n / 256 < 256 ^ k := by
          rw [Nat.div_lt_iff_lt_mul (by norm_num)]
          calc n < 256 ^ (k + 1) := hn
            _ = 256 ^ k * 256 := by ring
        have := ih (n / 256) this
        omega

theorem BytesToLong_lt (bs : List Nat) (h : ∀ b ∈ bs, b < 256) :
    BytesToLong bs < 256 ^ bs.length := by
  induction bs with
  | nil => simp [BytesToLong]
  | cons b r ih =>
      have hb : b < 256 := h b (List.mem_cons_self _ _)
      have hr := ih (fun x hx => h x (List.mem_cons_of_mem _ hx))
      simp only [BytesToLong, List.length_cons, pow_succ]
      calc b * 256 ^ r.length + BytesToLong r
          ≤ 255 * 256 ^ r.length + BytesToLong r := by
            have : b ≤ 255 := by omega
            exact Nat.add_le_add_right (Nat.mul_le_mul_right _ this) _
        _ < 255 * 256 ^ r.length + 256 ^ r.length := by omega
        _ = 256 ^ r.length * 256 := by ring

/-- `IntToBin` (util.py line 252): most-significant-bit-first binary digits. -/
def IntToBin (n : Nat) : List Bool :=
  if n = 0 then [false]
  else if h1 : n = 1 then [true]
  else IntToBin (n / 2) ++ [decide (n % 2 = 1)]
decreasing_by exact Nat.div_lt_self (by omega) (by norm_num)

/-- Value of a most-significant-bit-first bit string (`int(x, 2)`). -/
def binVal : List Bool → Nat
  | [] => 0
  | b :: r => (if b then 1 else 0) * 2 ^ r.length + binVal r

theorem binVal_append (xs ys : List Bool) :
    binVal (xs ++ ys) = binVal xs * 2 ^ ys.length + binVal ys := by
  induction xs with
  | nil => simp [binVal]
  | cons b r ih =>
      simp only [List.cons_append, binVal, ih, List.append_eq, List.length_append, pow_add]
      ring

theorem binVal_IntToBin (n : Nat) : binVal (IntToBin n) = n := by
  induction n using Nat.strong_induction_on with
  | _ n ih =>
      rw [IntToBin]
      by_cases h : n = 0
      · simp [h, binVal]
      · by_cases h1 : n = 1
        · simp [h, h1, binVal]
        · simp only [h, if_false, h1, dite_false]
          rw [binVal_append, ih (n / 2) (Nat.div_lt_self (by omega) (by norm_num))]
          simp only [binVal, List.length_nil, pow_zero, List.length_singleton, pow_one,
            Nat.mul_zero, Nat.add_zero]
          rcases Nat.even_or_odd n with he | ho
          · have : n % 2 = 0 := Nat.even_iff.mp he
            simp [this]
            omega
          · have : n % 2 = 1 := Nat.odd_iff.mp ho
            simp [this]
            omega

theorem IntToBin_length_pos (n : Nat) : 1 ≤ (IntToBin n).length := by
  rw [IntToBin]
  by_cases h : n = 0
  · simp [h]
  · by_cases h1 : n = 1 <;> simp [h, h1]

theorem IntToBin_length_le : ∀ (k n : Nat), 1 ≤ k → n < 2 ^ k → (IntToBin n).length ≤ k := by
  intro k
  induction k with
  | zero => omega
  | succ k ih =>
      intro n _ hn
      rw [IntToBin]
      by_cases h : n = 0
      · simp [h]
      · by_cases h1 : n = 1
        · simp [h, h1]
        · simp only [h, if_false, h1, dite_false, List.length_append, List.length_singleton]
          have hk : 1 ≤ k := by
            by_contra hc
            have : k = 0 := by omega
            subst this
            omega
          have : n / 2 < 2 ^ k := by
            rw [Nat.div_lt_iff_lt_mul (by norm_num)]
            calc n < 2 ^ (k + 1) := hn
              _ = 2 ^ k * 2 := by ring
          have := ih (n / 2) hk this
          omega

theorem binVal_lt (l : List Bool) : binVal l < 2 ^ l.length := by
  induction l with
  | nil => simp [binVal]
  | cons b r ih =>
      cases b <;> simp [binVal, pow_succ] <;> omega

theorem binVal_replicate_false (n : Nat) : binVal (List.replicate n false) = 0 := by
  induction n with
  | zero => simp [binVal]
  | succ k ih => simp [List.replicate_succ, binVal, ih]

/-- `_PadByte` (util.py line 247): pad a bit string with leading zeros to a
multiple of 8 bits. -/
def PadByte (bits : List Bool) : List Bool :=
  List.replicate ((8 - bits.length % 8) % 8) false ++ bits

theorem PadByte_length (l : List Bool) :
    (PadByte l).length = (8 - l.length % 8) % 8 + l.length := by
  simp [PadByte]

theorem binVal_PadByte (l : List Bool) : binVal (PadByte l) = binVal l := by
  simp [PadByte, binVal_append, binVal_replicate_false]

theorem PadByte_of_mod (l : List Bool) (h : l.length % 8 = 0) : PadByte l = l := by
  simp [PadByte]
  omega

/-- `BytesToBin` (util.py line 243): concatenation of the 8-bit expansions of
the bytes. -/
def BytesToBin : List Nat → List Bool
  | [] => []
  | b :: r => PadByte (IntToBin b) ++ BytesToBin r

theorem byteBits_length (b : Nat) (hb : b < 256) : (PadByte (IntToBin b)).length = 8 := by
  have h1 := IntToBin_length_pos b
  have h2 := IntToBin_length_le 8 b (by norm_num) (by norm_num at hb ⊢; omega)
  rw [PadByte_length]
  omega

theorem binVal_byteBits (b : Nat) : binVal (PadByte (IntToBin b)) = b := by
  rw [binVal_PadByte, binVal_IntToBin]

theorem BytesToBin_length (bs : List Nat) (h : ∀ b ∈ bs, b < 256) :
    (BytesToBin bs).length = 8 * bs.length := by
  induction bs with
  | nil => simp [BytesToBin]
  | cons b r ih =>
      simp only [BytesToBin, List.length_append, List.length_cons]
      rw [byteBits_length b (h b (List.mem_cons_self _ _)),
        ih (fun x hx => h x (List.mem_cons_of_mem _ hx))]
      ring

/-- The chunking loop inside `BinToBytes` (util.py line 236): split a bit
string into `len / 8` bytes, dropping any trailing remainder. -/
def chunk8 (l : List Bool) : List Nat :=
  if h : l.length < 8 then [] else binVal (l.take 8) :: chunk8 (l.drop 8)
termination_by l.length
decreasing_by simp only [List.length_drop]; omega

/-- `BinToBytes` (util.py line 236): convert a bit string to a byte string. -/
def BinToBytes (bits : List Bool) : List Nat := chunk8 (PadByte bits)

theorem chunk8_lt_aux : ∀ (n : Nat) (l : List Bool), l.length ≤ n → ∀ b ∈ chunk8 l, b < 256 := by
  intro n
  induction n with
  | zero =>
      intro l hl
      rw [chunk8]
      have : l.length < 8 := by omega
      simp [this]
  | succ n ih =>
      intro l hl
      rw [chunk8]
      by_cases h : l.length < 8
      · simp [h]
      · simp only [h, dite_false, List.mem_cons]
        intro b hb
        rcases hb with hb | hb
        · subst hb
          calc binVal (l.take 8) < 2 ^ (l.take 8).length := binVal_lt _
            _ ≤ 2 ^ 8 := Nat.pow_le_pow_right (by norm_num) (by simp)
            _ = 256 := by norm_num
        · exact ih (l.drop 8) (by simp only [List.length_drop]; omega) b hb

theorem chunk8_lt (l : List Bool) : ∀ b ∈ chunk8 l, b < 256 :=
  chunk8_lt_aux l.length l le_rfl

theorem chunk8_cons8 (l8 rest : List Bool) (h : l8.length = 8) :
    chunk8 (l8 ++ rest) = binVal l8 :: chunk8 rest := by
  rw [chunk8]
  have hlen : (l8 ++ rest).length = 8 + rest.length := by simp [h]
  have : ¬ (l8 ++ rest).length < 8 := by omega
  simp only [this, dite_false]
  congr 1
  · congr 1
    rw [← h, List.take_left]
  · congr 1
    rw [← h, List.drop_left]

theorem chunk8_BytesToBin (bs : List Nat) (h : ∀ b ∈ bs, b < 256) :
    chunk8 (BytesToBin bs) = bs := by
  induction bs with
  | nil => simp [BytesToBin, chunk8]
  | cons b r ih =>
      simp only [BytesToBin]
      rw [chunk8_cons8 _ _ (byteBits_length b (h b (List.mem_cons_self _ _))),
        binVal_byteBits, ih (fun x hx => h x (List.mem_cons_of_mem _ hx))]

theorem BinToBytes_BytesToBin (bs : List Nat) (h : ∀ b ∈ bs, b < 256) :
    BinToBytes (BytesToBin bs) = bs := by
  rw [BinToBytes, PadByte_of_mod _ (by rw [BytesToBin_length bs h]; omega),
    chunk8_BytesToBin bs h]

/-- `IntToBytes` (util.py line 269): 4 big-endian bytes of `n`. -/
def IntToBytes (n : Nat) : List Nat :=
  [n / 2 ^ 24 % 256, n / 2 ^ 16 % 256, n / 2 ^ 8 % 256, n % 256]

/-! ## DER codec

Modelled from the spec (section 4.1): the external pyasn1 library provides a
DER codec for INTEGER, OCTET STRING, BIT STRING, OBJECT IDENTIFIER, NULL and
SEQUENCE.  Object identifiers are represented by their DER content octets
(which are in bijection with the dotted arc lists); integers are the
non-negative arbitrary-precision values the repository uses. -/

/-- DER-encodable ASN.1 values (the five leaf constructs plus SEQUENCE of
section 4.1). -/
inductive Asn1 where
  | int (n : Nat)
  | octetString (bs : List Nat)
  | bitString (bits : List Bool)
  | oid (content : List Nat)
  | null
  | seq (elems : List Asn1)

mutual
/-- Structural size of an ASN.1 value, used as decoder fuel. -/
def sizeA : Asn1 → Nat
  | .seq es => sizeL es + 1
  | _ => 1
/-- Structural size of a list of ASN.1 values. -/
def sizeL : List Asn1 → Nat
  | [] => 0
  | v :: vs => sizeA v + sizeL vs + 1
end

/-- DER definite-length encoding: short form below 128, long form otherwise. -/
def encodeLen (L : Nat) : List Nat :=
  if L < 128 then [L] else (128 + (BigIntToBytes L).length) :: BigIntToBytes L

/-- Tag–length–value framing. -/
def tlv (t : Nat) (content : List Nat) : List Nat :=
  t :: (encodeLen content.length ++ content)

/-- DER INTEGER content octets of a non-negative integer: minimal big-endian
bytes, a zero byte for 0, and a leading zero byte when the top bit is set. -/
def intContent (n : Nat) : List Nat :=
  match BigIntToBytes n with
  | [] => [0]
  | b :: bs => if 128 ≤ b then 0 :: b :: bs else b :: bs

/-- DER BIT STRING content octets: the unused-bit count followed by the bits
packed into bytes (padded with trailing zero bits). -/
def bitContent (bits : List Bool) : List Nat :=
  ((8 - bits.length % 8) % 8) ::
    chunk8 (bits ++ List.replicate ((8 - bits.length % 8) % 8) false)

mutual
/-- DER encoding of an ASN.1 value (`encoder.encode`). -/
def encodeA : Asn1 → List Nat
  | .int n => tlv 2 (intContent n)
  | .octetString bs => tlv 4 bs
  | .bitString bits => tlv 3 (bitContent bits)
  | .oid c => tlv 6 c
  | .null => tlv 5 []
  | .seq es => tlv 48 (encodeList es)
/-- DER encoding of the contents of a SEQUENCE. -/
def encodeList : List Asn1 → List Nat
  | [] => []
  | v :: vs => encodeA v ++ encodeList vs
end

mutual
/-- Values whose DER encoding decodes back to themselves: bit strings must be
byte-aligned bit-packings and object identifiers non-empty.  Every value built
by the repository's export paths satisfies this. -/
def goodA : Asn1 → Bool
  | .int _ => true
  | .octetString _ => true
  | .bitString bits => decide (BytesToBin (BinToBytes bits) = bits)
  | .oid c => decide (c ≠ [])
  | .null => true
  | .seq es => goodL es
/-- `goodA` for every element of a list. -/
def goodL : List Asn1 → Bool
  | [] => true
  | v :: vs => goodA v && goodL vs
end

/-- Split off the first `n` bytes. -/
def splitN : Nat → List Nat → Option (List Nat × List Nat)
  | 0, l => some ([], l)
  | _ + 1, [] => none
  | n + 1, a :: l =>
    match splitN n l with
    | some (xs, r) => some (a :: xs, r)
    | none => none

theorem splitN_append (xs r : List Nat) : splitN xs.length (xs ++ r) = some (xs, r) := by
  induction xs with
  | nil => simp [splitN]
  | cons a l ih => simp [splitN, ih]

/-- Decode a DER definite length. -/
def decodeLen : List Nat → Option (Nat × List Nat)
  | [] => none
  | b :: r =>
    if b < 128 then some (b, r)
    else
      match splitN (b - 128) r with
      | some (lb, r2) => some (BytesToLong lb, r2)
      | none => none

theorem decodeLen_encodeLen (L : Nat) (r : List Nat) :
    decodeLen (encodeLen L ++ r) = some (L, r) := by
  rw [encodeLen]
  by_cases h : L < 128
  · simp [h, decodeLen]
  · simp only [h, if_false, List.cons_append, decodeLen]
    have h1 : ¬ (128 + (BigIntToBytes L).length < 128) := by omega
    simp only [h1, if_false]
    have h2 : 128 + (BigIntToBytes L).length - 128 = (BigIntToBytes L).length := by omega
    rw [h2, splitN_append]
    simp [BytesToLong_BigIntToBytes]

mutual
/-- Decode one DER value from a byte string, returning it and the remaining
bytes (`decoder.decode`).  `fuel` dominates the nesting depth; the callers
pass one more than the input length, which always suffices. -/
def decodeVal : Nat → List Nat → Option (Asn1 × List Nat)
  | 0, _ => none
  | _ + 1, [] => none
  | fuel + 1, t :: r0 =>
    match decodeLen r0 with
    | none => none
    | some (L, r1) =>
      match splitN L r1 with
      | none => none
      | some (content, rest) =>
        if t = 2 then
          match content with
          | [] => none
          | c :: cs => some (.int (BytesToLong (c :: cs)), rest)
        else if t = 4 then some (.octetString content, rest)
        else if t = 5 then
          match content with
          | [] => some (.null, rest)
          | _ :: _ => none
        else if t = 6 then
          match content with
          | [] => none
          | c :: cs => some (.oid (c :: cs), rest)
        else if t = 3 then
          match content with
          | [] => none
          | u :: payload =>
            some (.bitString ((BytesToBin payload).take (8 * payload.length - u)), rest)
        else if t = 48 then
          match decodeList fuel content with
          | some es => some (.seq es, rest)
          | none => none
        else none
/-- Decode a maximal run of DER values (the contents of a SEQUENCE). -/
def decodeList : Nat → List Nat → Option (List Asn1)
  | _, [] => some []
  | 0, _ :: _ => none
  | fuel + 1, b :: bs =>
    match decodeVal fuel (b :: bs) with
    | none => none
    | some (v, r) =>
      match decodeList fuel r with
      | some vs => some (v :: vs)
      | none => none
end

/-- `decoder.decode(bytes)[0]`: decode the first DER value, ignoring any
trailing bytes; a pyasn1 error if the bytes do not decode. -/
def decodeTop (bs : List Nat) : Except Err Asn1 :=
  match decodeVal (bs.length + 1) bs with
  | some (v, _) => .ok v
  | none => .error .asn1Error

theorem sizeA_pos (v : Asn1) : 1 ≤ sizeA v := by
  cases v <;> simp [sizeA]

theorem encodeA_ne_nil (v : Asn1) : encodeA v ≠ [] := by
  cases v <;> simp [encodeA, tlv]

theorem intContent_ne_nil (n : Nat) : intContent n ≠ [] := by
  rw [intContent]
  rcases h : BigIntToBytes n with _ | ⟨b, bs⟩
  · simp
  · by_cases hb : 128 ≤ b <;> simp [hb]

theorem BytesToLong_intContent (n : Nat) : BytesToLong (intContent n) = n := by
  have hn := BytesToLong_BigIntToBytes n
  rw [intContent]
  rcases h : BigIntToBytes n with _ | ⟨b, bs⟩
  · rw [h] at hn
    simp [BytesToLong] at hn ⊢
    omega
  · rw [h] at hn
    by_cases hb : 128 ≤ b
    · simp only [hb, if_true]
      simpa [BytesToLong] using hn
    · simp only [hb, if_false]
      exact hn

theorem good_bits_mod8 {bits : List Bool} (h : BytesToBin (BinToBytes bits) = bits) :
    bits.length % 8 = 0 := by
  have hlt : ∀ b ∈ BinToBytes bits, b < 256 := by
    rw [BinToBytes]; exact chunk8_lt _
  have hlen := BytesToBin_length (BinToBytes bits) hlt
  rw [h] at hlen
  omega

theorem chunk8_eq_BinToBytes (bits : List Bool) (hm : bits.length % 8 = 0) :
    chunk8 bits = BinToBytes bits := by
  rw [BinToBytes, PadByte_of_mod _ hm]

theorem bitContent_good (bits : List Bool) (h : BytesToBin (BinToBytes bits) = bits) :
    bitContent bits = 0 :: chunk8 bits := by
  have hm := good_bits_mod8 h
  rw [bitContent]
  simp [hm]

theorem bitString_take (bits : List Bool) (h : BytesToBin (BinToBytes bits) = bits) :
    (BytesToBin (chunk8 bits)).take (8 * (chunk8 bits).length - 0) = bits := by
  have hm := good_bits_mod8 h
  rw [chunk8_eq_BinToBytes bits hm, h]
  have hlt : ∀ b ∈ BinToBytes bits, b < 256 := by
    rw [BinToBytes]; exact chunk8_lt _
  have hlen := BytesToBin_length (BinToBytes bits) hlt
  rw [h] at hlen
  rw [Nat.sub_zero, ← hlen, List.take_length]

theorem decodeVal_tlv (fuel t : Nat) (c r : List Nat) :
    decodeVal (fuel + 1) (tlv t c ++ r) =
      (if t = 2 then
        (match c with
         | [] => none
         | x :: xs => some (.int (BytesToLong (x :: xs)), r))
      else if t = 4 then some (.octetString c, r)
      else if t = 5 then
        (match c with
         | [] => some (.null, r)
         | _ :: _ => none)
      else if t = 6 then
        (match c with
         | [] => none
         | x :: xs => some (.oid (x :: xs), r))
      else if t = 3 then
        (match c with
         | [] => none
         | u :: payload =>
            some (.bitString ((BytesToBin payload).take (8 * payload.length - u)), r))
      else if t = 48 then
        (match decodeList fuel c with
         | some es => some (.seq es, r)
         | none => none)
      else none) := by
  rw [tlv]
  simp only [List.cons_append, List.append_assoc]
  rw [decodeVal]
  rw [decodeLen_encodeLen]
  simp only []
  rw [splitN_append]

theorem rt_main : ∀ fuel : Nat,
    (∀ (v : Asn1) (rest : List Nat), goodA v = true → sizeA v ≤ fuel →
      decodeVal fuel (encodeA v ++ rest) = some (v, rest)) ∧
    (∀ es : List Asn1, goodL es = true → sizeL es ≤ fuel →
      decodeList fuel (encodeList es) = some es) := by
  intro fuel
  induction fuel with
  | zero =>
      refine ⟨?_, ?_⟩
      · intro v rest _ hs
        have := sizeA_pos v
        omega
      · intro es _ hs
        cases es with
        | nil => simp [encodeList, decodeList]
        | cons v vs =>
            have h1 := sizeA_pos v
            simp [sizeL] at hs
  | succ fuel ih =>
      refine ⟨?_, ?_⟩
      · intro v rest hg hs
        cases v with
        | int n =>
            simp only [encodeA]
            rw [decodeVal_tlv]
            rcases hi : intContent n with _ | ⟨c, cs⟩
            · exact absurd hi (intContent_ne_nil n)
            · have hv := BytesToLong_intContent n
              rw [hi] at hv
              simp [hv]
        | octetString bs =>
            simp only [encodeA]
            rw [decodeVal_tlv]
            simp
        | bitString bits =>
            have hg' : BytesToBin (BinToBytes bits) = bits := by
              simpa [goodA] using hg
            simp only [encodeA]
            rw [decodeVal_tlv]
            rw [bitContent_good bits hg']
            simp only [show (3 : Nat) ≠ 2 from by norm_num, if_false,
              show (3 : Nat) ≠ 4 from by norm_num,
              show (3 : Nat) ≠ 5 from by norm_num,
              show (3 : Nat) ≠ 6 from by norm_num, if_true]
            rw [bitString_take bits hg']
        | oid c =>
            have hc : c ≠ [] := by simpa [goodA] using hg
            rcases c with _ | ⟨x, xs⟩
            · exact absurd rfl hc
            · simp only [encodeA]
              rw [decodeVal_tlv]
              simp
        | null =>
            simp only [encodeA]
            rw [decodeVal_tlv]
            simp
        | seq es =>
            have hg' : goodL es = true := by simpa [goodA] using hg
            have hs' : sizeL es ≤ fuel := by
              simp only [sizeA] at hs
              omega
            simp only [encodeA]
            rw [decodeVal_tlv]
            simp only [show (48 : Nat) ≠ 2 from by norm_num, if_false,
              show (48 : Nat) ≠ 4 from by norm_num,
              show (48 : Nat) ≠ 5 from by norm_num,
              show (48 : Nat) ≠ 6 from by norm_num,
              show (48 : Nat) ≠ 3 from by norm_num, if_true]
            rw [ih.2 es hg' hs']
      · intro es hg hs
        cases es with
        | nil => simp [encodeList, decodeList]
        | cons v vs =>
            have hg1 : goodA v = true ∧ goodL vs = true := by
              simpa [goodL, Bool.and_eq_true] using hg
            have hs1 : sizeA v ≤ fuel ∧ sizeL vs ≤ fuel := by
              simp only [sizeL] at hs
              omega
            have hv := ih.1 v (encodeList vs) hg1.1 hs1.1
            have hvs := ih.2 vs hg1.2 hs1.2
            simp only [encodeList]
            rcases he : encodeA v with _ | ⟨hd, tl⟩
            · exact absurd he (encodeA_ne_nil v)
            · rw [he] at hv
              simp only [List.cons_append] at hv ⊢
              rw [decodeList, hv]
              simp [hvs]

theorem encodeLen_length_pos (L : Nat) : 1 ≤ (encodeLen L).length := by
  rw [encodeLen]
  by_cases h : L < 128 <;> simp [h]

theorem tlv_length (t : Nat) (c : List Nat) :
    (tlv t c).length = 1 + (encodeLen c.length).length + c.length := by
  simp [tlv]
  omega

theorem tlv_length_ge (t : Nat) (c : List Nat) : 2 ≤ (tlv t c).length := by
  have h1 := encodeLen_length_pos c.length
  rw [tlv_length]
  omega

theorem sz_main : ∀ m : Nat,
    (∀ v, sizeA v ≤ m → sizeA v + 1 ≤ (encodeA v).length) ∧
    (∀ es, sizeL es ≤ m → sizeL es ≤ (encodeList es).length) := by
  intro m
  induction m with
  | zero =>
      refine ⟨?_, ?_⟩
      · intro v hs
        have := sizeA_pos v
        omega
      · intro es hs
        cases es with
        | nil => simp [sizeL, encodeList]
        | cons v vs => simp [sizeL] at hs
  | succ m ih =>
      refine ⟨?_, ?_⟩
      · intro v hs
        cases v with
        | int n =>
            have := tlv_length_ge 2 (intContent n)
            simp only [encodeA, sizeA]
            omega
        | octetString bs =>
            have := tlv_length_ge 4 bs
            simp only [encodeA, sizeA]
            omega
        | bitString bits =>
            have := tlv_length_ge 3 (bitContent bits)
            simp only [encodeA, sizeA]
            omega
        | oid c =>
            have := tlv_length_ge 6 c
            simp only [encodeA, sizeA]
            omega
        | null =>
            have := tlv_length_ge 5 []
            simp only [encodeA, sizeA]
            omega
        | seq es =>
            have h1 : sizeL es ≤ m := by
              simp only [sizeA] at hs
              omega
            have h2 := ih.2 es h1
            have h3 := encodeLen_length_pos (encodeList es).length
            have h4 := tlv_length 48 (encodeList es)
            simp only [encodeA, sizeA]
            omega
      · intro es hs
        cases es with
        | nil => simp [sizeL, encodeList]
        | cons v vs =>
            have hsp : sizeA v ≤ m ∧ sizeL vs ≤ m := by
              simp only [sizeL] at hs
              omega
            have h1 := ih.1 v hsp.1
            have h2 := ih.2 vs hsp.2
            simp only [sizeL, encodeList, List.length_append]
            omega

/-- Decoding the DER encoding of a good value recovers the value. -/
theorem decodeTop_encodeA (v : Asn1) (hg : goodA v = true) : decodeTop (encodeA v) = .ok v := by
  have hsz := (sz_main (sizeA v)).1 v le_rfl
  have h := (rt_main ((encodeA v).length + 1)).1 v [] hg (by omega)
  rw [List.append_nil] at h
  simp [decodeTop, h]

mutual
/-- Structural well-formedness of the raw byte contents carried inside a
value: octet-string and object-identifier contents are genuine bytes. -/
def wfA : Asn1 → Bool
  | .int _ => true
  | .octetString bs => bs.all (fun b => decide (b < 256))
  | .bitString _ => true
  | .oid c => c.all (fun b => decide (b < 256))
  | .null => true
  | .seq es => wfL es
/-- `wfA` for every element of a list. -/
def wfL : List Asn1 → Bool
  | [] => true
  | v :: vs => wfA v && wfL vs
end

theorem encodeLen_byteOk (L : Nat) (h : L < 256 ^ 127) : ∀ b ∈ encodeLen L, b < 256 := by
  rw [encodeLen]
  by_cases hL : L < 128
  · simp [hL]
    omega
  · simp only [hL, if_false, List.mem_cons]
    intro b hb
    rcases hb with hb | hb
    · have := BigIntToBytes_length_le 127 L h
      omega
    · exact BigIntToBytes_lt L b hb

theorem intContent_lt (n : Nat) : ∀ x ∈ intContent n, x < 256 := by
  have hbig := BigIntToBytes_lt n
  rw [intContent]
  rcases h : BigIntToBytes n with _ | ⟨b, bs⟩
  · simp
  · rw [h] at hbig
    by_cases hb : 128 ≤ b
    · simp only [hb, if_true, List.mem_cons]
      intro x hx
      rcases hx with hx | hx | hx
      · omega
      · subst hx
        exact hbig x (List.mem_cons_self _ _)
      · exact hbig x (List.mem_cons_of_mem _ hx)
    · simp only [hb, if_false]
      exact hbig

theorem bitContent_lt (bits : List Bool) : ∀ x ∈ bitContent bits, x < 256 := by
  rw [bitContent]
  intro x hx
  rcases List.mem_cons.mp hx with hx | hx
  · have : (8 - bits.length % 8) % 8 < 8 := Nat.mod_lt _ (by norm_num)
    omega
  · exact chunk8_lt _ x hx

theorem tlv_byteOk (t : Nat) (c : List Nat) (ht : t < 256)
    (hc : ∀ b ∈ c, b < 256) (hL : c.length < 256 ^ 127) :
    ∀ b ∈ tlv t c, b < 256 := by
  intro b hb
  rw [tlv] at hb
  rcases List.mem_cons.mp hb with hb | hb
  · omega
  · rcases List.mem_append.mp hb with hb | hb
    · exact encodeLen_byteOk c.length hL b hb
    · exact hc b hb

theorem content_le_tlv (t : Nat) (c : List Nat) : c.length ≤ (tlv t c).length := by
  rw [tlv_length]
  omega

theorem byteOk_main : ∀ m : Nat,
    (∀ v, sizeA v ≤ m → wfA v = true → (encodeA v).length < 256 ^ 127 →
      ∀ b ∈ encodeA v, b < 256) ∧
    (∀ es, sizeL es ≤ m → wfL es = true → (encodeList es).length < 256 ^ 127 →
      ∀ b ∈ encodeList es, b < 256) := by
  intro m
  induction m with
  | zero =>
      refine ⟨?_, ?_⟩
      · intro v hs
        have := sizeA_pos v
        omega
      · intro es hs _ _
        cases es with
        | nil => simp [encodeList]
        | cons v vs => simp [sizeL] at hs
  | succ m ih =>
      refine ⟨?_, ?_⟩
      · intro v hs hwf hlen
        cases v with
        | int n =>
            simp only [encodeA] at hlen ⊢
            exact tlv_byteOk 2 (intContent n) (by norm_num) (intContent_lt n)
              (lt_of_le_of_lt (content_le_tlv 2 _) hlen)
        | octetString bs =>
            have hc : ∀ b ∈ bs, b < 256 := by
              simpa [wfA, List.all_eq_true] using hwf
            simp only [encodeA] at hlen ⊢
            exact tlv_byteOk 4 bs (by norm_num) hc
              (lt_of_le_of_lt (content_le_tlv 4 _) hlen)
        | bitString bits =>
            simp only [encodeA] at hlen ⊢
            exact tlv_byteOk 3 (bitContent bits) (by norm_num) (bitContent_lt bits)
              (lt_of_le_of_lt (content_le_tlv 3 _) hlen)
        | oid c =>
            have hc : ∀ b ∈ c, b < 256 := by
              simpa [wfA, List.all_eq_true] using hwf
            simp only [encodeA] at hlen ⊢
            exact tlv_byteOk 6 c (by norm_num) hc
              (lt_of_le_of_lt (content_le_tlv 6 _) hlen)
        | null =>
            simp only [encodeA] at hlen ⊢
            exact tlv_byteOk 5 [] (by norm_num) (by simp)
              (lt_of_le_of_lt (content_le_tlv 5 _) hlen)
        | seq es =>
            have hs' : sizeL es ≤ m := by
              simp only [sizeA] at hs
              omega
            have hwf' : wfL es = true := by simpa [wfA] using hwf
            simp only [encodeA] at hlen ⊢
            have hlen' : (encodeList es).length < 256 ^ 127 :=
              lt_of_le_of_lt (content_le_tlv 48 _) hlen
            exact tlv_byteOk 48 (encodeList es) (by norm_num)
              (ih.2 es hs' hwf' hlen') hlen'
      · intro es hs hwf hlen
        cases es with
        | nil => simp [encodeList]
        | cons v vs =>
            have hsp : sizeA v ≤ m ∧ sizeL vs ≤ m := by
              simp only [sizeL] at hs
              omega
            have hwfp : wfA v = true ∧ wfL vs = true := by
              simpa [wfL, Bool.and_eq_true] using hwf
            simp only [encodeList, List.length_append] at hlen ⊢
            intro b hb
            rcases List.mem_append.mp hb with hb | hb
            · exact ih.1 v hsp.1 hwfp.1 (by omega) b hb
            · exact ih.2 vs hsp.2 hwfp.2 (by omega) b hb

theorem encodeLen_length_le (L : Nat) : (encodeLen L).length ≤ L + 1 := by
  rw [encodeLen]
  by_cases hL : L < 128
  · simp [hL]
  · simp only [hL, if_false, List.length_cons]
    have h1 : L < 256 ^ L := Nat.lt_pow_self (by norm_num) L
    have := BigIntToBytes_length_le L L h1
    omega

theorem tlv_length_le (t : Nat) (c : List Nat) : (tlv t c).length ≤ 2 * c.length + 2 := by
  have h1 := encodeLen_length_le c.length
  rw [tlv_length]
  omega

theorem intContent_length_le (n k : Nat) (h : n < 256 ^ k) :
    (intContent n).length ≤ k + 1 := by
  have hm := BigIntToBytes_length_le k n h
  rw [intContent]
  rcases hbb : BigIntToBytes n with _ | ⟨b, bs⟩
  · simp
  · rw [hbb] at hm
    by_cases hb : 128 ≤ b
    · simp only [hb, if_true, List.length_cons] at hm ⊢
      omega
    · simp only [hb, if_false]
      omega

theorem encodeA_int_length_le (n k : Nat) (h : n < 256 ^ k) :
    (encodeA (.int n)).length ≤ 2 * k + 6 := by
  have h1 := intContent_length_le n k h
  have h2 := tlv_length_le 2 (intContent n)
  simp only [encodeA]
  omega

theorem bitContent_BytesToBin (bs : List Nat) (h : ∀ b ∈ bs, b < 256) :
    bitContent (BytesToBin bs) = 0 :: bs := by
  have hgood : BytesToBin (BinToBytes (BytesToBin bs)) = BytesToBin bs := by
    rw [BinToBytes_BytesToBin bs h]
  rw [bitContent_good _ hgood, chunk8_BytesToBin bs h]

/-! ## Base64 codec

`Encode`/`Decode` (util.py lines 324 and 337) wrap the standard base64 codec
(`base64.b64encode`/`b64decode`), which is modelled from the spec's base64
boundary as the usual 6-bit alphabet encoding. -/

/-- The standard base64 alphabet. -/
def alphabet : List Char :=
  ['A','B','C','D','E','F','G','H','I','J','K','L','M','N','O','P','Q','R','S',
   'T','U','V','W','X','Y','Z','a','b','c','d','e','f','g','h','i','j','k','l',
   'm','n','o','p','q','r','s','t','u','v','w','x','y','z','0','1','2','3','4',
   '5','6','7','8','9','+','/']

/-- Alphabet character of a 6-bit index. -/
def alphaChar (i : Nat) : Char := alphabet.getD (i % 64) 'A'

/-- Index of an alphabet character. -/
def sextetOf (c : Char) : Option Nat := List.findIdx? (fun x => x == c) alphabet

/-- Base64-encode a byte string, three bytes to four characters,
`'='`-padding the final group. -/
def b64chunks : List Nat → List Char
  | [] => []
  | [b1] => [alphaChar (b1 / 4), alphaChar (b1 % 4 * 16), '=', '=']
  | [b1, b2] =>
      [alphaChar (b1 / 4), alphaChar (b1 % 4 * 16 + b2 / 16), alphaChar (b2 % 16 * 4), '=']
  | b1 :: b2 :: b3 :: rest =>
      alphaChar (b1 / 4) :: alphaChar (b1 % 4 * 16 + b2 / 16) ::
        alphaChar (b2 % 16 * 4 + b3 / 64) :: alphaChar (b3 % 64) :: b64chunks rest

/-- `Encode` (util.py line 324): the base64 text of a byte string. -/
def Encode (bs : List Nat) : String := String.mk (b64chunks bs)

/-- Base64-decode a padded group sequence. -/
def dec4 : List Char → Except Err (List Nat)
  | [] => .ok []
  | c1 :: c2 :: c3 :: c4 :: rest =>
    match sextetOf c1, sextetOf c2 with
    | some s1, some s2 =>
      if c3 = '=' then
        if c4 = '=' then
          if rest = [] then .ok [s1 * 4 + s2 / 16] else .error .binasciiError
        else .error .binasciiError
      else
        match sextetOf c3 with
        | some s3 =>
          if c4 = '=' then
            if rest = [] then .ok [s1 * 4 + s2 / 16, s2 % 16 * 16 + s3 / 4]
            else .error .binasciiError
          else
            match sextetOf c4 with
            | some s4 =>
              match dec4 rest with
              | .ok bs =>
                  .ok ((s1 * 4 + s2 / 16) :: (s2 % 16 * 16 + s3 / 4) :: (s3 % 4 * 64 + s4) :: bs)
              | .error e => .error e
            | none => .error .binasciiError
        | none => .error .binasciiError
    | _, _ => .error .binasciiError
  | _ => .error .binasciiError

/-- `base64.b64decode`: characters outside the alphabet are discarded, then
padded groups are decoded; a `binascii` error on ill-formed padding. -/
def b64decode (cs : List Char) : Except Err (List Nat) :=
  dec4 (cs.filter (fun c => decide (c ∈ alphabet ∨ c = '=')))

/-- `Decode` (util.py line 337): remove spaces, reject length 1 mod 4, re-add
missing `'='` padding, and base64-decode. -/
def Decode (s : String) : Except Err (List Nat) :=
  if (s.data.filter (fun c => decide (c ≠ ' '))).length % 4 = 1 then
    .error .base64DecodingError
  else if (s.data.filter (fun c => decide (c ≠ ' '))).length % 4 = 2 then
    b64decode (s.data.filter (fun c => decide (c ≠ ' ')) ++ ['=', '='])
  else if (s.data.filter (fun c => decide (c ≠ ' '))).length % 4 = 3 then
    b64decode (s.data.filter (fun c => decide (c ≠ ' ')) ++ ['='])
  else b64decode (s.data.filter (fun c => decide (c ≠ ' ')))

theorem alphaChar_mem (i : Nat) : alphaChar i ∈ alphabet := by
  have h : ∀ j ∈ List.range 64, alphabet.getD j 'A' ∈ alphabet := by decide
  exact h (i % 64) (List.mem_range.mpr (Nat.mod_lt _ (by norm_num)))

theorem sextet_alphaChar (i : Nat) : sextetOf (alphaChar i) = some (i % 64) := by
  have h : ∀ j ∈ List.range 64, sextetOf (alphabet.getD j 'A') = some j := by decide
  exact h (i % 64) (List.mem_range.mpr (Nat.mod_lt _ (by norm_num)))

theorem alphaChar_ne_pad (i : Nat) : alphaChar i ≠ '=' := by
  intro h
  have := alphaChar_mem i
  rw [h] at this
  exact absurd this (by decide)

theorem alphaChar_ne_space (i : Nat) : alphaChar i ≠ ' ' := by
  intro h
  have := alphaChar_mem i
  rw [h] at this
  exact absurd this (by decide)

theorem b64chunks_mem_aux : ∀ (n : Nat) (bs : List Nat), bs.length ≤ n →
    ∀ c ∈ b64chunks bs, c ∈ alphabet ∨ c = '=' := by
  intro n
  induction n with
  | zero =>
      intro bs h c hc
      cases bs with
      | nil => simp [b64chunks] at hc
      | cons b r => simp at h
  | succ n ih =>
      intro bs h c hc
      rcases bs with _ | ⟨b1, bs⟩
      · simp [b64chunks] at hc
      rcases bs with _ | ⟨b2, bs⟩
      · simp only [b64chunks, List.mem_cons, List.not_mem_nil, or_false] at hc
        rcases hc with hc | hc | hc | hc
        · exact Or.inl (hc ▸ alphaChar_mem _)
        · exact Or.inl (hc ▸ alphaChar_mem _)
        · exact Or.inr hc
        · exact Or.inr hc
      rcases bs with _ | ⟨b3, rest⟩
      · simp only [b64chunks, List.mem_cons, List.not_mem_nil, or_false] at hc
        rcases hc with hc | hc | hc | hc
        · exact Or.inl (hc ▸ alphaChar_mem _)
        · exact Or.inl (hc ▸ alphaChar_mem _)
        · exact Or.inl (hc ▸ alphaChar_mem _)
        · exact Or.inr hc
      · simp only [b64chunks, List.mem_cons] at hc
        rcases hc with hc | hc | hc | hc | hc
        · exact Or.inl (hc ▸ alphaChar_mem _)
        · exact Or.inl (hc ▸ alphaChar_mem _)
        · exact Or.inl (hc ▸ alphaChar_mem _)
        · exact Or.inl (hc ▸ alphaChar_mem _)
        · exact ih rest (by simp at h; omega) c hc

theorem b64chunks_mem (bs : List Nat) : ∀ c ∈ b64chunks bs, c ∈ alphabet ∨ c = '=' :=
  b64chunks_mem_aux bs.length bs le_rfl

theorem b64chunks_mod4_aux : ∀ (n : Nat) (bs : List Nat), bs.length ≤ n →
    (b64chunks bs).length % 4 = 0 := by
  intro n
  induction n with
  | zero =>
      intro bs h
      cases bs with
      | nil => simp [b64chunks]
      | cons b r => simp at h
  | succ n ih =>
      intro bs h
      rcases bs with _ | ⟨b1, bs⟩
      · simp [b64chunks]
      rcases bs with _ | ⟨b2, bs⟩
      · simp [b64chunks]
      rcases bs with _ | ⟨b3, rest⟩
      · simp [b64chunks]
      · have := ih rest (by simp at h; omega)
        simp only [b64chunks, List.length_cons]
        omega

theorem b64chunks_mod4 (bs : List Nat) : (b64chunks bs).length % 4 = 0 :=
  b64chunks_mod4_aux bs.length bs le_rfl

theorem dec4_b64chunks_aux : ∀ (n : Nat) (bs : List Nat), bs.length ≤ n →
    (∀ b ∈ bs, b < 256) → dec4 (b64chunks bs) = .ok bs := by
  intro n
  induction n with
  | zero =>
      intro bs h hb
      cases bs with
      | nil => simp [b64chunks, dec4]
      | cons b r => simp at h
  | succ n ih =>
      intro bs h hb
      rcases bs with _ | ⟨b1, bs⟩
      · simp [b64chunks, dec4]
      rcases bs with _ | ⟨b2, bs⟩
      · have hb1 : b1 < 256 := hb b1 (List.mem_cons_self _ _)
        simp only [b64chunks]
        rw [dec4]
        rw [sextet_alphaChar, sextet_alphaChar]
        simp only [if_pos rfl]
        have hx : (b1 / 4) % 64 * 4 + (b1 % 4 * 16) % 64 / 16 = b1 := by omega
        simp [hx]
      rcases bs with _ | ⟨b3, rest⟩
      · have hb1 : b1 < 256 := hb b1 (List.mem_cons_self _ _)
        have hb2 : b2 < 256 := hb b2 (List.mem_cons_of_mem _ (List.mem_cons_self _ _))
        have hne : alphaChar (b2 % 16 * 4) ≠ '=' := alphaChar_ne_pad _
        have hx1 : (b1 / 4) % 64 * 4 + (b1 % 4 * 16 + b2 / 16) % 64 / 16 = b1 := by omega
        have hx2 : (b1 % 4 * 16 + b2 / 16) % 64 % 16 * 16 + (b2 % 16 * 4) % 64 / 4 = b2 := by
          omega
        simp only [b64chunks]
        rw [dec4]
        simp [sextet_alphaChar, hne, hx1, hx2]
      · have hb1 : b1 < 256 := hb b1 (List.mem_cons_self _ _)
        have hb2 : b2 < 256 := hb b2 (List.mem_cons_of_mem _ (List.mem_cons_self _ _))
        have hb3 : b3 < 256 :=
          hb b3 (List.mem_cons_of_mem _ (List.mem_cons_of_mem _ (List.mem_cons_self _ _)))
        have hrest := ih rest (by simp at h; omega)
          (fun x hx => hb x (List.mem_cons_of_mem _ (List.mem_cons_of_mem _
            (List.mem_cons_of_mem _ hx))))
        have hne3 : alphaChar (b2 % 16 * 4 + b3 / 64) ≠ '=' := alphaChar_ne_pad _
        have hne4 : alphaChar (b3 % 64) ≠ '=' := alphaChar_ne_pad _
        have hx1 : (b1 / 4) % 64 * 4 + (b1 % 4 * 16 + b2 / 16) % 64 / 16 = b1 := by omega
        have hx2 : (b1 % 4 * 16 + b2 / 16) % 64 % 16 * 16 + (b2 % 16 * 4 + b3 / 64) % 64 / 4 = b2 := by
          omega
        have hx3 : (b2 % 16 * 4 + b3 / 64) % 64 % 4 * 64 + b3 % 64 % 64 = b3 := by omega
        simp only [b64chunks]
        rw [dec4]
        simp [sextet_alphaChar, hne3, hne4, hrest, hx1, hx2, hx3]
        all_goals omega

theorem dec4_b64chunks (bs : List Nat) (hb : ∀ b ∈ bs, b < 256) :
    dec4 (b64chunks bs) = .ok bs :=
  dec4_b64chunks_aux bs.length bs le_rfl hb

theorem b64decode_b64chunks (bs : List Nat) (hb : ∀ b ∈ bs, b < 256) :
    b64decode (b64chunks bs) = .ok bs := by
  rw [b64decode]
  have hfil : (b64chunks bs).filter (fun c => decide (c ∈ alphabet ∨ c = '=')) = b64chunks bs := by
    rw [List.filter_eq_self]
    intro c hc
    exact decide_eq_true (b64chunks_mem bs c hc)
  rw [hfil, dec4_b64chunks bs hb]

theorem Decode_Encode (bs : List Nat) (hb : ∀ b ∈ bs, b < 256) :
    Decode (Encode bs) = .ok bs := by
  have hfil : (b64chunks bs).filter (fun c => decide (c ≠ ' ')) = b64chunks bs := by
    rw [List.filter_eq_self]
    intro c hc
    rcases b64chunks_mem bs c hc with hc2 | hc2
    · refine decide_eq_true ?_
      intro hsp
      rw [hsp] at hc2
      exact absurd hc2 (by decide)
    · subst hc2
      decide
  have hmod := b64chunks_mod4 bs
  rw [Encode, Decode]
  simp only [String.data]
  rw [hfil, hmod]
  norm_num
  exact b64decode_b64chunks bs hb

/-! ## PKCS8 and X.509 codecs (util.py lines 105–191) -/

/-- `RSA_OID` 1.2.840.113549.1.1.1 as DER content octets. -/
def RSA_OID_bytes : List Nat := [42, 134, 72, 134, 247, 13, 1, 1, 1]

/-- `DSA_OID` 1.2.840.10040.4.1 as DER content octets. -/
def DSA_OID_bytes : List Nat := [42, 134, 72, 206, 56, 4, 1]

/-- `RSA_PARAMS` (util.py line 76). -/
def RSA_PARAMS : List String := ["n", "e", "d", "p", "q", "dp", "dq", "invq"]

/-- `DSA_PARAMS` (util.py line 78): algorithm parameters only. -/
def DSA_PARAMS : List String := ["p", "q", "g"]

/-- A `KeyParameterMap`: a Python dict from parameter name to integer, as an
association list in insertion order. -/
abbrev KeyParams := List (String × Nat)

/-- The loop `params[NAMES[i]] = long(seq[i])`: read integer components
positionally into named parameters; an out-of-range component access is a
pyasn1 `ValueError`-style failure, a non-integer component a `TypeError`.
Trailing extra components are ignored, as in the source loop. -/
def readInts : List String → List Asn1 → Except Err KeyParams
  | [], _ => .ok []
  | _ :: _, [] => .error .valueError
  | nm :: names, v :: vs =>
    match v with
    | .int x =>
      match readInts names vs with
      | .ok ps => .ok ((nm, x) :: ps)
      | .error e => .error e
    | _ => .error .typeError

/-- `[long(x) for x in ParseASN1Sequence(...)]`: every component converted. -/
def mapInts : List Asn1 → Except Err (List Nat)
  | [] => .ok []
  | v :: vs =>
    match v with
    | .int x =>
      match mapInts vs with
      | .ok xs => .ok (x :: xs)
      | .error e => .error e
    | _ => .error .typeError

/-- `ParsePkcs8` (util.py line 105): base64-decode, DER-decode, check the
3-field shape and zero version, then branch on the algorithm OID to build the
RSA private map `{n,e,d,p,q,dp,dq,invq}` or the DSA private map `{p,q,g,x}`. -/
def ParsePkcs8 (pkcs8 : String) : Except Err KeyParams :=
  match Decode pkcs8 with
  | .error e => .error e
  | .ok bs =>
    match decodeTop bs with
    | .error e => .error e
    | .ok top =>
      match top with
      | .seq comps =>
        if comps.length ≠ 3 then .error (.keyczarError "Illegal PKCS8 String.")
        else
          match comps with
          | [c0, c1, c2] =>
            match c0 with
            | .int ver =>
              if ver ≠ 0 then .error (.keyczarError "Unrecognized PKCS8 Version")
              else
                match c1 with
                | .seq [o, algParams] =>
                  match c2 with
                  | .octetString oct =>
                    match decodeTop oct with
                    | .error e => .error e
                    | .ok key =>
                      match o with
                      | .oid oc =>
                        if oc = RSA_OID_bytes then
                          match key with
                          | .seq (k0 :: krest) =>
                            match k0 with
                            | .int kver =>
                              if kver ≠ 0 then
                                .error (.keyczarError "Unrecognized RSA Private Key Version")
                              else readInts RSA_PARAMS krest
                            | _ => .error .typeError
                          | .seq [] => .error .valueError
                          | _ => .error .typeError
                        else if oc = DSA_OID_bytes then
                          match algParams with
                          | .seq aps =>
                            match readInts DSA_PARAMS aps with
                            | .ok ps =>
                              match key with
                              | .int x => .ok (ps ++ [("x", x)])
                              | _ => .error .typeError
                            | .error e => .error e
                          | _ => .error .typeError
                        else .error (.keyczarError "Unrecognized AlgorithmIdentifier: not RSA/DSA")
                      | _ => .error (.keyczarError "Unrecognized AlgorithmIdentifier: not RSA/DSA")
                  | _ => .error .typeError
                | .seq _ => .error .valueError
                | _ => .error .typeError
            | _ => .error .typeError
          | _ => .error .asn1Error
      | _ => .error .typeError

/-- Dict lookups `params[k]` over a list of keys; the first missing key
raises `KeyError`. -/
def lookupMany (ps : KeyParams) : List String → Except Err (List Nat)
  | [] => .ok []
  | k :: ks =>
    match ps.lookup k with
    | none => .error (.keyError k)
    | some v =>
      match lookupMany ps ks with
      | .ok vs => .ok (v :: vs)
      | .error e => .error e

/-- `ExportRsaPkcs8` (util.py line 132). -/
def ExportRsaPkcs8 (params : KeyParams) : Except Err String :=
  match lookupMany params RSA_PARAMS with
  | .error e => .error e
  | .ok vals =>
    .ok (Encode (encodeA (.seq [.int 0, .seq [.oid RSA_OID_bytes, .null],
      .octetString (encodeA (.seq (.int 0 :: vals.map Asn1.int)))])))

/-- `ExportDsaPkcs8` (util.py line 141). -/
def ExportDsaPkcs8 (params : KeyParams) : Except Err String :=
  match lookupMany params DSA_PARAMS with
  | .error e => .error e
  | .ok vals =>
    match params.lookup "x" with
    | none => .error (.keyError "x")
    | some x =>
      .ok (Encode (encodeA (.seq [.int 0, .seq [.oid DSA_OID_bytes, .seq (vals.map Asn1.int)],
        .octetString (encodeA (.int x))])))

/-- `ParseX509` (util.py line 154): base64-decode, DER-decode, check the
2-field shape, unwrap the BIT STRING via the bit/byte helpers, DER-decode the
payload, then branch on the algorithm OID to build `{n,e}` or `{p,q,g,y}`. -/
def ParseX509 (x509 : String) : Except Err KeyParams :=
  match Decode x509 with
  | .error e => .error e
  | .ok bs =>
    match decodeTop bs with
    | .error e => .error e
    | .ok top =>
      match top with
      | .seq comps =>
        if comps.length ≠ 2 then .error (.keyczarError "Illegal X.509 String.")
        else
          match comps with
          | [c0, c1] =>
            match c0 with
            | .seq [o, algParams] =>
              match c1 with
              | .bitString bits =>
                match decodeTop (BinToBytes bits) with
                | .error e => .error e
                | .ok pubkey =>
                  match o with
                  | .oid oc =>
                    if oc = RSA_OID_bytes then
                      match pubkey with
                      | .seq [a, b] =>
                        match a, b with
                        | .int nv, .int ev => .ok [("n", nv), ("e", ev)]
                        | _, _ => .error .typeError
                      | .seq _ => .error .valueError
                      | _ => .error .typeError
                    else if oc = DSA_OID_bytes then
                      match algParams with
                      | .seq aps =>
                        match mapInts aps with
                        | .error e => .error e
                        | .ok vals =>
                          match vals with
                          | p :: q :: g :: _ =>
                            match pubkey with
                            | .int y => .ok [("p", p), ("q", q), ("g", g), ("y", y)]
                            | _ => .error .typeError
                          | _ => .error .valueError
                      | _ => .error .typeError
                    else .error (.keyczarError "Unrecognized AlgorithmIdentifier: not RSA/DSA")
                  | _ => .error (.keyczarError "Unrecognized AlgorithmIdentifier: not RSA/DSA")
              | _ => .error .typeError
            | .seq _ => .error .valueError
            | _ => .error .typeError
          | _ => .error .asn1Error
      | _ => .error .typeError

/-- `ExportRsaX509` (util.py line 175). -/
def ExportRsaX509 (params : KeyParams) : Except Err String :=
  match params.lookup "n" with
  | none => .error (.keyError "n")
  | some nv =>
    match params.lookup "e" with
    | none => .error (.keyError "e")
    | some ev =>
      .ok (Encode (encodeA (.seq [.seq [.oid RSA_OID_bytes, .null],
        .bitString (BytesToBin (encodeA (.seq [.int nv, .int ev])))])))

/-- `ExportDsaX509` (util.py line 183). -/
def ExportDsaX509 (params : KeyParams) : Except Err String :=
  match lookupMany params DSA_PARAMS with
  | .error e => .error e
  | .ok vals =>
    match params.lookup "y" with
    | none => .error (.keyError "y")
    | some y =>
      .ok (Encode (encodeA (.seq [.seq [.oid DSA_OID_bytes, .seq (vals.map Asn1.int)],
        .bitString (BytesToBin (encodeA (.int y)))])))

/-! ## Record merge engine (util.py lines 424–456) -/

/-- One reported field conflict: the identity label, the key, the retained
destination value and the discarded incoming value.  The source prints these
four pieces (util.py line 437); the spec models the print as a conflict
report delivered to the caller's diagnostic sink. -/
structure Conflict where
  name : String
  key : String
  kept : String
  incoming : String
deriving DecidableEq

/-- A `KeyRecord`: a Python dict from field name to string value, as an
association list in insertion order. -/
abbrev KeyRec := List (String × String)

/-- A `KeyRecordCollection`: a Python dict from record name to `KeyRec`. -/
abbrev KeyDict := List (String × KeyRec)

/-- `check_and_set` (util.py line 424): set an absent key; leave an equal
value alone; on a differing value keep the destination value and report one
conflict labelled with the record's `name` field (or `"(unknown)"`). -/
def check_and_set (key : KeyRec) (k : String) (v : String) : KeyRec × List Conflict :=
  match key.lookup k with
  | some w =>
    if w ≠ v then
      ⟨key, [{ name := (key.lookup "name").getD "(unknown)", key := k,
               kept := w, incoming := v }]⟩
    else ⟨key, []⟩
  | none => ⟨key ++ [(k, v)], []⟩

/-- `merge_keys` (util.py line 442): `check_and_set` every item of the second
record into the first, accumulating conflicts. -/
def merge_keys (key1 key2 : KeyRec) : KeyRec × List Conflict :=
  key2.foldl (fun acc kv =>
    ((check_and_set acc.1 kv.1 kv.2).1, acc.2 ++ (check_and_set acc.1 kv.1 kv.2).2))
    (key1, [])

/-- In-place mutation of the record stored under `name` (`merge_keys(kd1[name], ...)`). -/
def updateAt (kd : KeyDict) (name : String) (r : KeyRec) : KeyDict :=
  kd.map (fun p => if p.1 = name then (p.1, r) else p)

/-- `merge_keydicts` (util.py line 448): merge each named source record into
the destination record of the same name, or insert it verbatim. -/
def merge_keydicts (kd1 kd2 : KeyDict) : KeyDict × List Conflict :=
  kd2.foldl (fun acc p =>
    match acc.1.lookup p.1 with
    | some r => (updateAt acc.1 p.1 (merge_keys r p.2).1, acc.2 ++ (merge_keys r p.2).2)
    | none => (acc.1 ++ [p], acc.2)) (kd1, [])

/-! ## OpenPGP secret-keyring extraction (gpg.py lines 20–49) -/

/-- The fields of a pgpdump `SecretSubkeyPacket` consumed by the source. -/
structure SecretSubkeyPacket where
  pub_algorithm_type : String
  prime : Nat
  group_order : Nat
  group_gen : Nat
  key_value : Nat
  exponent_x : Nat
  key_id : String
deriving DecidableEq

/-- A packet of the secret keyring: a secret-subkey packet, or any other
packet kind (all of which the extractor ignores). -/
inductive PGPPacket where
  | secretSubkey (p : SecretSubkeyPacket)
  | other
deriving DecidableEq

/-- Python dict assignment `d[k] = v` on an association list. -/
def dictSet (d : List (String × KeyParams)) (k : String) (v : KeyParams) :
    List (String × KeyParams) :=
  if (d.lookup k).isSome then d.map (fun p => if p.1 = k then (k, v) else p)
  else d ++ [(k, v)]

/-- The DSA parameter map extracted from a secret-subkey packet
(gpg.py lines 43–47). -/
def subkeyValues (p : SecretSubkeyPacket) : KeyParams :=
  [("p", p.prime), ("q", p.group_order), ("g", p.group_gen),
   ("y", p.key_value), ("x", p.exponent_x)]

/-- `GPGProperties.parse` (gpg.py line 21) applied to the packet stream of
the secret keyring: record `{p,q,g,y,x}` under the key id of every DSA
secret-subkey packet; every other packet is ignored. -/
def GPGProperties_parse (packets : List PGPPacket) : List (String × KeyParams) :=
  packets.foldl (fun kd pkt =>
    match pkt with
    | .secretSubkey p =>
      if p.pub_algorithm_type = "dsa" then dictSet kd p.key_id (subkeyValues p)
      else kd
    | .other => kd) []

/-! ## Fingerprint (util.py line 419)

`fingerprint(key)` is `'{0:040x}'.format(bytes_to_long(DSAKey(key).fingerprint()))`.
`DSAKey(...).fingerprint()` belongs to the external potr library and is
modelled from the spec (section 4.5): a 160-bit SHA-1 digest over the
big-endian serializations of p, q, g, y, each prefixed by its own 4-byte
big-endian length, in that order.  `bytes_to_long` is the source's own
`BytesToLong`. -/

/-- 32-bit left rotation (words are naturals below `2 ^ 32`). -/
def rotl (k w : Nat) : Nat := (w * 2 ^ k + w / 2 ^ (32 - k)) % 2 ^ 32

/-- SHA-1 round constants. -/
def sha1K (i : Nat) : Nat :=
  if i < 20 then 0x5A827999
  else if i < 40 then 0x6ED9EBA1
  else if i < 60 then 0x8F1BBCDC
  else 0xCA62C1D6

/-- SHA-1 round functions. -/
def sha1F (i b c d : Nat) : Nat :=
  if i < 20 then (b &&& c) ||| ((b ^^^ 0xFFFFFFFF) &&& d)
  else if i < 40 then b ^^^ c ^^^ d
  else if i < 60 then (b &&& c) ||| (b &&& d) ||| (c &&& d)
  else b ^^^ c ^^^ d

/-- Split a byte string into maximal chunks of `k` bytes. -/
def chunkBytes (k : Nat) (l : List Nat) : List (List Nat) :=
  if h : k = 0 ∨ l.length < k then [] else l.take k :: chunkBytes k (l.drop k)
termination_by l.length
decreasing_by
  simp only [List.length_drop]
  omega

/-- SHA-1 message-schedule extension of a 16-word block to 80 words. -/
def sha1W (block : List Nat) : List Nat :=
  (List.range 64).foldl (fun ws _ =>
    ws ++ [rotl 1 (ws.getD (ws.length - 3) 0 ^^^ ws.getD (ws.length - 8) 0 ^^^
      ws.getD (ws.length - 14) 0 ^^^ ws.getD (ws.length - 16) 0)]) block

/-- SHA-1 compression of one 16-word block into the running state. -/
def sha1Compress (h : Nat × Nat × Nat × Nat × Nat) (block : List Nat) :
    Nat × Nat × Nat × Nat × Nat :=
  let ws := sha1W block
  match (List.range 80).foldl (fun st i =>
      match st with
      | (a, b, c, d, e) =>
        ((rotl 5 a + sha1F i b c d + e + sha1K i + ws.getD i 0) % 2 ^ 32,
          a, rotl 30 b, c, d)) h with
  | (a, b, c, d, e) =>
    match h with
    | (h0, h1, h2, h3, h4) =>
      ((h0 + a) % 2 ^ 32, (h1 + b) % 2 ^ 32, (h2 + c) % 2 ^ 32,
        (h3 + d) % 2 ^ 32, (h4 + e) % 2 ^ 32)

/-- SHA-1 padding: a `0x80` byte, zeros to 56 mod 64, and the 8-byte
big-endian bit length. -/
def sha1Pad (msg : List Nat) : List Nat :=
  msg ++ [128] ++ List.replicate ((120 - (msg.length + 1) % 64) % 64) 0 ++
    [msg.length * 8 / 2 ^ 56 % 256, msg.length * 8 / 2 ^ 48 % 256,
     msg.length * 8 / 2 ^ 40 % 256, msg.length * 8 / 2 ^ 32 % 256,
     msg.length * 8 / 2 ^ 24 % 256, msg.length * 8 / 2 ^ 16 % 256,
     msg.length * 8 / 2 ^ 8 % 256, msg.length * 8 % 256]

/-- Big-endian bytes of a 32-bit word. -/
def word4 (w : Nat) : List Nat :=
  [w / 2 ^ 24 % 256, w / 2 ^ 16 % 256, w / 2 ^ 8 % 256, w % 256]

/-- Modelled from the spec: the SHA-1 digest (`hashlib.sha1`), 20 bytes. -/
def sha1 (msg : List Nat) : List Nat :=
  match (chunkBytes 64 (sha1Pad msg)).foldl
      (fun h blk => sha1Compress h ((chunkBytes 4 blk).map BytesToLong))
      (0x67452301, 0xEFCDAB89, 0x98BADCFE, 0x10325476, 0xC3D2E1F0) with
  | (h0, h1, h2, h3, h4) => word4 h0 ++ word4 h1 ++ word4 h2 ++ word4 h3 ++ word4 h4

/-- Modelled from the spec (section 4.5): the potr DSA public-key
serialization hashed by `DSAKey(key).fingerprint()`. -/
def serializeDsaPubkey (p q g y : Nat) : List Nat :=
  (IntToBytes (BigIntToBytes p).length ++ BigIntToBytes p) ++
  (IntToBytes (BigIntToBytes q).length ++ BigIntToBytes q) ++
  (IntToBytes (BigIntToBytes g).length ++ BigIntToBytes g) ++
  (IntToBytes (BigIntToBytes y).length ++ BigIntToBytes y)

/-- The lowercase hexadecimal digits. -/
def hexDigits : List Char :=
  ['0', '1', '2', '3', '4', '5', '6', '7'] ++ ['8', '9', 'a', 'b', 'c', 'd', 'e', 'f']

/-- Hex digit character. -/
def hexChar (d : Nat) : Char := hexDigits.getD d '0'

/-- Minimal lowercase hexadecimal digits of `n` (`'{0:x}'.format`). -/
def natToHex (n : Nat) : List Char :=
  if h : n < 16 then [hexChar n] else natToHex (n / 16) ++ [hexChar (n % 16)]
decreasing_by exact Nat.div_lt_self (by omega) (by norm_num)

/-- `'{0:040x}'.format`: zero-pad the hex digits to at least width 40. -/
def format040x (n : Nat) : List Char :=
  List.replicate (40 - (natToHex n).length) '0' ++ natToHex n

/-- `fingerprint` (util.py line 419) on the DSA public parameters p, q, g, y. -/
def fingerprint (p q g y : Nat) : String :=
  String.mk (format040x (BytesToLong (sha1 (serializeDsaPubkey p q g y))))

theorem word4_lt (w : Nat) : ∀ b ∈ word4 w, b < 256 := by
  intro b hb
  simp only [word4, List.mem_cons, List.not_mem_nil, or_false] at hb
  rcases hb with h | h | h | h <;> subst h <;> exact Nat.mod_lt _ (by norm_num)

theorem sha1_length (msg : List Nat) : (sha1 msg).length = 20 := by
  rw [sha1]
  split
  simp [word4]

theorem sha1_lt (msg : List Nat) : ∀ b ∈ sha1 msg, b < 256 := by
  rw [sha1]
  split
  simp only [List.mem_append, List.append_assoc]
  intro b hb
  rcases hb with h | h | h | h | h <;> exact word4_lt _ b h

theorem hexChar_mem (d : Nat) : hexChar d ∈ hexDigits := by
  by_cases h : d < 16
  · have hall : ∀ j ∈ List.range 16, hexDigits.getD j '0' ∈ hexDigits := by decide
    exact hall d (List.mem_range.mpr h)
  · rw [hexChar, List.getD_eq_default]
    · decide
    · simp only [hexDigits, List.length_append, List.length_cons, List.length_nil]
      omega

theorem natToHex_mem (n : Nat) : ∀ c ∈ natToHex n, c ∈ hexDigits := by
  induction n using Nat.strong_induction_on with
  | _ n ih =>
      rw [natToHex]
      by_cases h : n < 16
      · simp [h, hexChar_mem]
      · simp only [h, dite_false]
        intro c hc
        rcases List.mem_append.mp hc with hc | hc
        · exact ih (n / 16) (Nat.div_lt_self (by omega) (by norm_num)) c hc
        · simp only [List.mem_singleton] at hc
          exact hc ▸ hexChar_mem _

theorem natToHex_length_le : ∀ (k n : Nat), 1 ≤ k → n < 16 ^ k → (natToHex n).length ≤ k := by
  intro k
  induction k with
  | zero => omega
  | succ k ih =>
      intro n _ hn
      rw [natToHex]
      by_cases h : n < 16
      · simp [h]
      · simp only [h, dite_false, List.length_append, List.length_singleton]
        have hk : 1 ≤ k := by
          by_contra hc
          have : k = 0 := by omega
          subst this
          simp at hn
          omega
        have : n / 16 < 16 ^ k := by
          rw [Nat.div_lt_iff_lt_mul (by norm_num)]
          calc n < 16 ^ (k + 1) := hn
            _ = 16 ^ k * 16 := by ring
        have := ih (n / 16) hk this
        omega

/-- C8: for every DSA key input, `fingerprint` returns a string of exactly 40
lowercase hexadecimal characters, and two calls with identical input return
the identical string (the function is a pure transformation). -/
theorem C8_fingerprint_format : ∀ p q g y : Nat,
    (fingerprint p q g y).length = 40 ∧
    ((fingerprint p q g y).data.all (fun c => decide (c ∈ hexDigits))) = true ∧
    fingerprint p q g y = fingerprint p q g y := by
  intro p q g y
  have hlt := sha1_lt (serializeDsaPubkey p q g y)
  have hlen := sha1_length (serializeDsaPubkey p q g y)
  have hval : BytesToLong (sha1 (serializeDsaPubkey p q g y)) < 16 ^ 40 := by
    have h2 := BytesToLong_lt _ hlt
    rw [hlen] at h2
    calc BytesToLong (sha1 (serializeDsaPubkey p q g y)) < 256 ^ 20 := h2
      _ = 16 ^ 40 := by norm_num
  have hhex := natToHex_length_le 40 _ (by norm_num) hval
  refine ⟨?_, ?_, rfl⟩
  · rw [fingerprint]
    simp only [String.length, format040x, List.length_append, List.length_replicate]
    omega
  · rw [fingerprint, List.all_eq_true]
    intro c hc
    simp only [format040x] at hc
    rcases List.mem_append.mp hc with h | h
    · have : c = '0' := List.eq_of_mem_replicate h
      subst this
      decide
    · exact decide_eq_true (natToHex_mem _ c h)

/-- C3: merge field policy, first write wins: `check_and_set` sets an absent
key and reports no conflict; leaves an equal value alone with no conflict; on
a differing value it never overwrites and reports exactly one conflict
carrying the identity label, the key, the retained destination value and the
discarded incoming value. -/
theorem C3_merge_field_first_write_wins : ∀ (d : KeyRec) (k v : String),
    (d.lookup k = none → check_and_set d k v = (d ++ [(k, v)], [])) ∧
    (d.lookup k = some v → check_and_set d k v = (d, [])) ∧
    (∀ w, d.lookup k = some w → w ≠ v →
      check_and_set d k v =
        (d, [{ name := (d.lookup "name").getD "(unknown)", key := k,
               kept := w, incoming := v }])) := by
  intro d k v
  refine ⟨?_, ?_, ?_⟩
  · intro h
    rw [check_and_set, h]
  · intro h
    rw [check_and_set, h]
    simp
  · intro w hw hne
    rw [check_and_set, hw]
    simp [hne]

/-- Witness for C3, at the spec's own example: merging `{test: "no"}` into
`{test: "yes"}` keeps `"yes"` and reports exactly one conflict. -/
theorem C3_merge_field_witness :
    check_and_set [("test", "yes")] "test" "no" =
      ([("test", "yes")], [(⟨"(unknown)", "test", "yes", "no"⟩ : Conflict)]) := by
  have h := (C3_merge_field_first_write_wins [("test", "yes")] "test" "no").2.2 "yes"
    (by rfl) (by decide)
  rw [h]
  rfl

/-- The fold step of `merge_keydicts`, named for reasoning. -/
def mkdStep (acc : KeyDict × List Conflict) (p : String × KeyRec) : KeyDict × List Conflict :=
  match acc.1.lookup p.1 with
  | some r => (updateAt acc.1 p.1 (merge_keys r p.2).1, acc.2 ++ (merge_keys r p.2).2)
  | none => (acc.1 ++ [p], acc.2)

theorem merge_keydicts_eq_foldl (kd1 kd2 : KeyDict) :
    merge_keydicts kd1 kd2 = kd2.foldl mkdStep (kd1, []) := rfl

theorem mkd_acc : ∀ (l : KeyDict) (kd : KeyDict) (cs : List Conflict),
    l.foldl mkdStep (kd, cs) =
      ((l.foldl mkdStep (kd, [])).1, cs ++ (l.foldl mkdStep (kd, [])).2) := by
  intro l
  induction l with
  | nil => intro kd cs; simp
  | cons p rest ih =>
      intro kd cs
      rw [List.foldl_cons, List.foldl_cons]
      rcases hl : kd.lookup p.1 with _ | r
      · simp only [mkdStep, hl]
        rw [ih (kd ++ [p]) cs]
      · simp only [mkdStep, hl]
        rw [ih (updateAt kd p.1 (merge_keys r p.2).1) (cs ++ (merge_keys r p.2).2),
          ih (updateAt kd p.1 (merge_keys r p.2).1) ([] ++ (merge_keys r p.2).2)]
        simp

/-- C7: collection merge: a source record whose name is absent from the
destination is inserted verbatim; a source record whose name exists is merged
into the destination record with `merge_keys`; a multi-record source is
processed record by record, accumulating conflicts; and
`mergeCollection({}, {"alice": R})` yields `{"alice": R}` with zero
conflicts. -/
theorem C7_merge_collection : ∀ (kd : KeyDict) (nm : String) (rec2 : KeyRec),
    (kd.lookup nm = none → merge_keydicts kd [(nm, rec2)] = (kd ++ [(nm, rec2)], [])) ∧
    (∀ r, kd.lookup nm = some r →
      merge_keydicts kd [(nm, rec2)] =
        (updateAt kd nm (merge_keys r rec2).1, (merge_keys r rec2).2)) ∧
    (∀ kd2, merge_keydicts kd ((nm, rec2) :: kd2) =
      ((merge_keydicts (merge_keydicts kd [(nm, rec2)]).1 kd2).1,
       (merge_keydicts kd [(nm, rec2)]).2 ++
         (merge_keydicts (merge_keydicts kd [(nm, rec2)]).1 kd2).2)) ∧
    (∀ R : KeyRec, merge_keydicts [] [("alice", R)] = ([("alice", R)], [])) := by
  intro kd nm rec2
  refine ⟨?_, ?_, ?_, ?_⟩
  · intro h
    rw [merge_keydicts_eq_foldl, List.foldl_cons, List.foldl_nil]
    simp [mkdStep, h]
  · intro r h
    rw [merge_keydicts_eq_foldl, List.foldl_cons, List.foldl_nil]
    simp [mkdStep, h]
  · intro kd2
    rw [merge_keydicts_eq_foldl, List.foldl_cons]
    rw [merge_keydicts_eq_foldl kd [(nm, rec2)], List.foldl_cons, List.foldl_nil]
    rw [merge_keydicts_eq_foldl]
    rcases hl : kd.lookup nm with _ | r
    · simp only [mkdStep, hl]
      rw [mkd_acc kd2 (kd ++ [(nm, rec2)]) []]
      simp
    · simp only [mkdStep, hl]
      rw [mkd_acc kd2 (updateAt kd nm (merge_keys r rec2).1) ([] ++ (merge_keys r rec2).2)]
  · intro R
    rw [merge_keydicts_eq_foldl, List.foldl_cons, List.foldl_nil]
    simp [mkdStep]

/-- Witness for C7: inserting a fresh record into an empty collection, and
merging a source record into an existing record of the same name. -/
theorem C7_merge_collection_witness :
    merge_keydicts [] [("alice", [("protocol", "jabber")])] =
      ([("alice", [("protocol", "jabber")])], []) ∧
    merge_keydicts [("alice", [("name", "alice")])] [("alice", [("name", "alice")])] =
      ([("alice", [("name", "alice")])], []) := by
  constructor
  · exact (C7_merge_collection [] "alice" [("protocol", "jabber")]).1 rfl
  · have h := (C7_merge_collection [("alice", [("name", "alice")])] "alice"
      [("name", "alice")]).2.1 [("name", "alice")] rfl
    rw [h]
    rfl

/-- The fold step of `GPGProperties_parse`, named for reasoning. -/
def gpgStep (kd : List (String × KeyParams)) (pkt : PGPPacket) : List (String × KeyParams) :=
  match pkt with
  | .secretSubkey p =>
    if p.pub_algorithm_type = "dsa" then dictSet kd p.key_id (subkeyValues p) else kd
  | .other => kd

theorem GPGProperties_parse_eq_foldl (ps : List PGPPacket) :
    GPGProperties_parse ps = ps.foldl gpgStep [] := rfl

theorem lookup_append {β : Type} (l1 l2 : List (String × β)) (k : String) :
    (l1 ++ l2).lookup k =
      (match l1.lookup k with
       | some v => some v
       | none => l2.lookup k) := by
  induction l1 with
  | nil => simp [List.lookup]
  | cons a l ih =>
      rcases a with ⟨ak, av⟩
      by_cases h : k = ak
      · subst h
        simp [List.lookup]
      · simp [List.lookup, beq_eq_false_iff_ne.mpr h, ih]

theorem lookup_map_set (d : List (String × KeyParams)) (k k2 : String) (v : KeyParams) :
    (d.map (fun p => if p.1 = k then (k, v) else p)).lookup k2 =
      if k2 = k then (if (d.lookup k).isSome then some v else none) else d.lookup k2 := by
  induction d with
  | nil => by_cases h : k2 = k <;> simp [h]
  | cons a d ih =>
      rcases a with ⟨ak, av⟩
      rw [List.map_cons]
      by_cases hak : ak = k
      · subst hak
        have hh : (if (ak, av).1 = ak then (ak, v) else (ak, av)) = (ak, v) := by simp
        rw [hh]
        by_cases h2 : k2 = ak
        · subst h2
          simp [List.lookup]
        · have hne : (k2 == ak) = false := beq_eq_false_iff_ne.mpr h2
          simp [List.lookup, hne, h2, ih]
      · have hh : (if (ak, av).1 = k then (k, v) else (ak, av)) = (ak, av) := by simp [hak]
        rw [hh]
        by_cases h2 : k2 = k
        · subst h2
          have hne : (k2 == ak) = false := beq_eq_false_iff_ne.mpr (fun hc => hak hc.symm)
          simp only [List.lookup, hne, ih, hak]
        · by_cases h3 : k2 = ak
          · subst h3
            simp [List.lookup, h2, ih]
          · have hne : (k2 == ak) = false := beq_eq_false_iff_ne.mpr h3
            simp [List.lookup, hne, h2, h3, ih]

theorem dictSet_lookup (d : List (String × KeyParams)) (k k2 : String) (v : KeyParams) :
    (dictSet d k v).lookup k2 = if k2 = k then some v else d.lookup k2 := by
  rw [dictSet]
  by_cases hk : (d.lookup k).isSome
  · simp only [hk, if_true]
    rw [lookup_map_set]
    by_cases h2 : k2 = k <;> simp [h2, hk]
  · have hkf : (d.lookup k).isSome = false := by
      rcases hkk : d.lookup k with _ | w
      · simp [hkk]
      · exact absurd (by simp [hkk]) hk
    rw [hkf]
    simp only [Bool.false_eq_true, if_false]
    by_cases h2 : k2 = k
    · subst h2
      rw [lookup_append]
      rcases hl : d.lookup k2 with _ | w
      · simp [List.lookup]
      · rw [hl] at hkf
        simp at hkf
    · rw [lookup_append]
      rcases hl : d.lookup k2 with _ | w
      · simp [List.lookup, beq_eq_false_iff_ne.mpr h2, h2]
      · simp [h2]

theorem gpg_fold_pres : ∀ (ps : List PGPPacket) (kd : List (String × KeyParams)) (kid : String),
    (kd.lookup kid).isSome → ((ps.foldl gpgStep kd).lookup kid).isSome := by
  intro ps
  induction ps with
  | nil =>
      intro kd kid h
      simpa using h
  | cons pkt rest ih =>
      intro kd kid h
      rw [List.foldl_cons]
      apply ih
      cases pkt with
      | other => simpa [gpgStep] using h
      | secretSubkey p =>
          by_cases hd : p.pub_algorithm_type = "dsa"
          · simp only [gpgStep, hd, if_true]
            rw [dictSet_lookup]
            by_cases hk : kid = p.key_id <;> simp [hk, h]
          · simpa [gpgStep, hd] using h

theorem gpg_fold_lookup : ∀ (ps : List PGPPacket) (kd : List (String × KeyParams))
    (kid : String) (m : KeyParams),
    ((ps.foldl gpgStep kd).lookup kid) = some m →
    kd.lookup kid = some m ∨
      ∃ d, PGPPacket.secretSubkey d ∈ ps ∧ d.pub_algorithm_type = "dsa" ∧
        d.key_id = kid ∧ m = subkeyValues d := by
  intro ps
  induction ps with
  | nil =>
      intro kd kid m h
      exact Or.inl (by simpa using h)
  | cons pkt rest ih =>
      intro kd kid m h
      rw [List.foldl_cons] at h
      rcases ih _ kid m h with h1 | ⟨d, hd1, hd2, hd3, hd4⟩
      · cases pkt with
        | other => exact Or.inl (by simpa [gpgStep] using h1)
        | secretSubkey p =>
            by_cases hd : p.pub_algorithm_type = "dsa"
            · simp only [gpgStep, hd, if_true] at h1
              rw [dictSet_lookup] at h1
              by_cases hk : kid = p.key_id
              · refine Or.inr ⟨p, List.mem_cons_self _ _, hd, hk.symm, ?_⟩
                simp only [hk, if_true] at h1
                exact (Option.some.injEq _ _ ▸ h1).symm
              · exact Or.inl (by simpa [hk] using h1)
            · exact Or.inl (by simpa [gpgStep, hd] using h1)
      · exact Or.inr ⟨d, List.mem_cons_of_mem _ hd1, hd2, hd3, hd4⟩

theorem gpg_fold_dsa : ∀ (ps : List PGPPacket) (kd : List (String × KeyParams))
    (d : SecretSubkeyPacket),
    PGPPacket.secretSubkey d ∈ ps → d.pub_algorithm_type = "dsa" →
    ((ps.foldl gpgStep kd).lookup d.key_id).isSome := by
  intro ps
  induction ps with
  | nil =>
      intro kd d h
      simp at h
  | cons pkt rest ih =>
      intro kd d hmem hdsa
      rw [List.foldl_cons]
      rcases List.mem_cons.mp hmem with he | ht
      · apply gpg_fold_pres
        rw [← he]
        simp only [gpgStep, hdsa, if_true]
        rw [dictSet_lookup]
        simp
      · exact ih _ d ht hdsa

/-- C9: for every packet stream of a secret keyring, the extractor's mapping
contains an entry under the key identifier of every DSA secret-subkey packet,
and every entry of the mapping is the parameter map
`{p: prime, q: group order, g: group generator, y: key value, x: exponent}`
of some DSA secret-subkey packet of the stream with that key identifier —
nothing is contributed by non-DSA or non-subkey packets. -/
theorem C9_gpg_extraction : ∀ ps : List PGPPacket,
    (∀ kid m, (GPGProperties_parse ps).lookup kid = some m →
      ∃ d, PGPPacket.secretSubkey d ∈ ps ∧ d.pub_algorithm_type = "dsa" ∧
        d.key_id = kid ∧ m = subkeyValues d) ∧
    (∀ d, PGPPacket.secretSubkey d ∈ ps → d.pub_algorithm_type = "dsa" →
      ∃ m, (GPGProperties_parse ps).lookup d.key_id = some m) := by
  intro ps
  constructor
  · intro kid m h
    rw [GPGProperties_parse_eq_foldl] at h
    rcases gpg_fold_lookup ps [] kid m h with h1 | h2
    · simp [List.lookup] at h1
    · exact h2
  · intro d hmem hdsa
    have hs := gpg_fold_dsa ps [] d hmem hdsa
    rw [GPGProperties_parse_eq_foldl]
    rcases hl : (ps.foldl gpgStep []).lookup d.key_id with _ | m
    · rw [hl] at hs
      simp at hs
    · exact ⟨m, rfl⟩

/-- Witness for C9: a single DSA secret-subkey packet is recorded under its
key identifier. -/
theorem C9_gpg_extraction_witness :
    ∃ m, (GPGProperties_parse [PGPPacket.secretSubkey
      ⟨"dsa", 7, 5, 3, 2, 4, "abcd1234"⟩]).lookup "abcd1234" = some m :=
  (C9_gpg_extraction _).2 ⟨"dsa", 7, 5, 3, 2, 4, "abcd1234"⟩
    (List.mem_singleton.mpr rfl) rfl

theorem lookupMany_ok_iff : ∀ (ks : List String) (ps : KeyParams),
    (∃ vs, lookupMany ps ks = .ok vs) ↔ ∀ k ∈ ks, (ps.lookup k).isSome := by
  intro ks
  induction ks with
  | nil =>
      intro ps
      simp [lookupMany]
  | cons k rest ih =>
      intro ps
      constructor
      · rintro ⟨vs, hvs⟩
        rw [lookupMany] at hvs
        rcases hl : ps.lookup k with _ | v
        · rw [hl] at hvs
          simp at hvs
        · rw [hl] at hvs
          intro k2 hk2
          rcases List.mem_cons.mp hk2 with he | ht
          · subst he
            simp [hl]
          · rcases hr : lookupMany ps rest with e | vs2
            · rw [hr] at hvs
              simp at hvs
            · exact (ih ps).mp ⟨vs2, hr⟩ k2 ht
      · intro hall
        have hk : (ps.lookup k).isSome := hall k (List.mem_cons_self _ _)
        rcases hl : ps.lookup k with _ | v
        · rw [hl] at hk
          simp at hk
        · rcases (ih ps).mpr (fun k2 hk2 => hall k2 (List.mem_cons_of_mem _ hk2)) with ⟨vs2, hvs2⟩
          refine ⟨v :: vs2, ?_⟩
          rw [lookupMany, hl, hvs2]

theorem lookupMany_error : ∀ (ks : List String) (ps : KeyParams) (e : Err),
    lookupMany ps ks = .error e → ∃ k, k ∈ ks ∧ ps.lookup k = none ∧ e = .keyError k := by
  intro ks
  induction ks with
  | nil =>
      intro ps e h
      simp [lookupMany] at h
  | cons k rest ih =>
      intro ps e h
      rw [lookupMany] at h
      rcases hl : ps.lookup k with _ | v
      · rw [hl] at h
        simp only [Except.error.injEq] at h
        exact ⟨k, List.mem_cons_self _ _, hl, h.symm⟩
      · rw [hl] at h
        rcases hr : lookupMany ps rest with e2 | vs2
        · rw [hr] at h
          simp only [Except.error.injEq] at h
          rcases ih ps e2 hr with ⟨k2, hk2, hn, he⟩
          exact ⟨k2, List.mem_cons_of_mem _ hk2, hn, h ▸ he⟩
        · rw [hr] at h
          simp at h

/-- C4 amended: for each algorithm the private-key export fails, with a
missing-key error and no output, exactly when some required parameter for
that algorithm is absent (RSA private `{n,e,d,p,q,dp,dq,invq}`; DSA private
`{p,q,g,x}`); a key set that strictly contains the expected shape is not
rejected — extra keys are ignored and the export succeeds. -/
theorem C4_export_shape_amended : ∀ ps : KeyParams,
    ((∃ out, ExportRsaPkcs8 ps = .ok out) ↔ ∀ k ∈ RSA_PARAMS, (ps.lookup k).isSome) ∧
    ((∃ out, ExportDsaPkcs8 ps = .ok out) ↔ ∀ k ∈ DSA_PARAMS ++ ["x"], (ps.lookup k).isSome) ∧
    (∀ e, ExportRsaPkcs8 ps = .error e →
      ∃ k, k ∈ RSA_PARAMS ∧ ps.lookup k = none ∧ e = .keyError k) ∧
    (∀ e, ExportDsaPkcs8 ps = .error e →
      ∃ k, k ∈ DSA_PARAMS ++ ["x"] ∧ ps.lookup k = none ∧ e = .keyError k) := by
  intro ps
  refine ⟨?_, ?_, ?_, ?_⟩
  · constructor
    · rintro ⟨out, hout⟩
      rw [ExportRsaPkcs8] at hout
      rcases hr : lookupMany ps RSA_PARAMS with e | vs
      · rw [hr] at hout
        simp at hout
      · exact (lookupMany_ok_iff RSA_PARAMS ps).mp ⟨vs, hr⟩
    · intro hall
      rcases (lookupMany_ok_iff RSA_PARAMS ps).mpr hall with ⟨vs, hvs⟩
      have hok : ExportRsaPkcs8 ps = .ok (Encode (encodeA (.seq [.int 0,
          .seq [.oid RSA_OID_bytes, .null],
          .octetString (encodeA (.seq (.int 0 :: vs.map Asn1.int)))]))) := by
        rw [ExportRsaPkcs8, hvs]
      exact ⟨_, hok⟩
  · constructor
    · rintro ⟨out, hout⟩
      rw [ExportDsaPkcs8] at hout
      rcases hr : lookupMany ps DSA_PARAMS with e | vs
      · rw [hr] at hout
        simp at hout
      · intro k hk
        rcases List.mem_append.mp hk with hk1 | hk2
        · exact (lookupMany_ok_iff DSA_PARAMS ps).mp ⟨vs, hr⟩ k hk1
        · simp only [List.mem_singleton] at hk2
          subst hk2
          rw [hr] at hout
          rcases hx : ps.lookup "x" with _ | xv
          · rw [hx] at hout
            simp at hout
          · simp [hx]
    · intro hall
      rcases (lookupMany_ok_iff DSA_PARAMS ps).mpr
        (fun k hk => hall k (List.mem_append.mpr (Or.inl hk))) with ⟨vs, hvs⟩
      have hx : (ps.lookup "x").isSome :=
        hall "x" (List.mem_append.mpr (Or.inr (List.mem_singleton.mpr rfl)))
      rcases hxl : ps.lookup "x" with _ | xv
      · rw [hxl] at hx
        simp at hx
      · have hok : ExportDsaPkcs8 ps = .ok (Encode (encodeA (.seq [.int 0,
            .seq [.oid DSA_OID_bytes, .seq (vs.map Asn1.int)],
            .octetString (encodeA (.int xv))]))) := by
          rw [ExportDsaPkcs8, hvs, hxl]
        exact ⟨_, hok⟩
  · intro e he
    rw [ExportRsaPkcs8] at he
    rcases hr : lookupMany ps RSA_PARAMS with e2 | vs
    · rw [hr] at he
      simp only [Except.error.injEq] at he
      rcases lookupMany_error RSA_PARAMS ps e2 hr with ⟨k, hk, hn, hke⟩
      exact ⟨k, hk, hn, he ▸ hke⟩
    · rw [hr] at he
      simp at he
  · intro e he
    rw [ExportDsaPkcs8] at he
    rcases hr : lookupMany ps DSA_PARAMS with e2 | vs
    · rw [hr] at he
      simp only [Except.error.injEq] at he
      rcases lookupMany_error DSA_PARAMS ps e2 hr with ⟨k, hk, hn, hke⟩
      exact ⟨k, List.mem_append.mpr (Or.inl hk), hn, he ▸ hke⟩
    · rw [hr] at he
      rcases hx : ps.lookup "x" with _ | xv
      · rw [hx] at he
        simp only [Except.error.injEq] at he
        exact ⟨"x", List.mem_append.mpr (Or.inr (List.mem_singleton.mpr rfl)), hx, he.symm⟩
      · rw [hx] at he
        simp at he

/-- Counterexample for C4 as stated: a KeyParameterMap whose key set strictly
contains the expected RSA private shape is not rejected with an
invalid-parameters error — the export succeeds and produces output. -/
theorem C4_export_shape_counterexample :
    ∃ out, ExportRsaPkcs8 [("n", 1), ("e", 1), ("d", 1), ("p", 1), ("q", 1),
      ("dp", 1), ("dq", 1), ("invq", 1), ("extra", 99)] = .ok out :=
  ⟨_, rfl⟩

/-- Witness for C4 amended: a map missing `e` fails with a missing-key error
naming a required RSA key. -/
theorem C4_export_shape_witness :
    ∃ k, k ∈ RSA_PARAMS ∧ (("n", 1) :: ([] : KeyParams)).lookup k = none ∧
      Err.keyError "e" = .keyError k :=
  (C4_export_shape_amended [("n", 1)]).2.2.1 (.keyError "e") rfl

theorem byteOk_encodeA_of (v : Asn1) (hwf : wfA v = true)
    (hlen : (encodeA v).length < 256 ^ 127) : ∀ b ∈ encodeA v, b < 256 :=
  (byteOk_main (sizeA v)).1 v le_rfl hwf hlen

theorem lt_pow127_of_le {a : Nat} (h : a ≤ 16777215) : a < 256 ^ 127 := by
  calc a ≤ 16777215 := h
    _ < 256 ^ 3 := by norm_num
    _ ≤ 256 ^ 127 := Nat.pow_le_pow_right (by norm_num) (by norm_num)

theorem encodeA_seq_length_le (es : List Asn1) :
    (encodeA (.seq es)).length ≤ 2 * (encodeList es).length + 2 := by
  simpa only [encodeA] using tlv_length_le 48 (encodeList es)

theorem encodeA_octet_length_le (bs : List Nat) :
    (encodeA (.octetString bs)).length ≤ 2 * bs.length + 2 := by
  simpa only [encodeA] using tlv_length_le 4 bs

theorem encodeA_oid_length_le (c : List Nat) :
    (encodeA (.oid c)).length ≤ 2 * c.length + 2 := by
  simpa only [encodeA] using tlv_length_le 6 c

theorem encodeA_null_length_le : (encodeA .null).length ≤ 2 := by
  simpa only [encodeA] using tlv_length_le 5 []

theorem wfA_int (n : Nat) : wfA (.int n) = true := by simp [wfA]

theorem wfA_null : wfA .null = true := by simp [wfA]

theorem wfA_octetString_of (bs : List Nat) (h : ∀ b ∈ bs, b < 256) :
    wfA (.octetString bs) = true := by
  simp only [wfA, List.all_eq_true, decide_eq_true_eq]
  exact h

theorem wfA_oid_of (c : List Nat) (h : ∀ b ∈ c, b < 256) : wfA (.oid c) = true := by
  simp only [wfA, List.all_eq_true, decide_eq_true_eq]
  exact h

theorem wfA_seq (es : List Asn1) : wfA (.seq es) = wfL es := by simp [wfA]

theorem wfL_cons (v : Asn1) (vs : List Asn1) : wfL (v :: vs) = (wfA v && wfL vs) := by
  simp [wfL]

theorem wfL_nil : wfL [] = true := by simp [wfL]

theorem goodA_int (n : Nat) : goodA (.int n) = true := by simp [goodA]

theorem goodA_null : goodA .null = true := by simp [goodA]

theorem goodA_octetString (bs : List Nat) : goodA (.octetString bs) = true := by simp [goodA]

theorem goodA_oid_of (c : List Nat) (h : c ≠ []) : goodA (.oid c) = true := by
  simp [goodA, h]

theorem goodA_seq (es : List Asn1) : goodA (.seq es) = goodL es := by simp [goodA]

theorem goodL_cons (v : Asn1) (vs : List Asn1) : goodL (v :: vs) = (goodA v && goodL vs) := by
  simp [goodL]

theorem goodL_nil : goodL [] = true := by simp [goodL]

theorem goodA_bitString_BytesToBin (bs : List Nat) (h : ∀ b ∈ bs, b < 256) :
    goodA (.bitString (BytesToBin bs)) = true := by
  simp only [goodA, decide_eq_true_eq]
  rw [BinToBytes_BytesToBin bs h]

/-- C1: private-key round trip: for every valid RSA private KeyParameterMap
`{n,e,d,p,q,dp,dq,invq}` and every valid DSA private KeyParameterMap
`{p,q,g,x}` (parameters of any realistic size — up to 80000 bits here),
parsing the bytes produced by the private-key export returns the identical
parameter map, whose key shape identifies the algorithm. -/
theorem C1_private_round_trip :
    (∀ n e d p q dp dq invq : Nat,
      (∀ v ∈ [n, e, d, p, q, dp, dq, invq], v < 256 ^ 10000) →
      Except.bind (ExportRsaPkcs8 [("n", n), ("e", e), ("d", d), ("p", p), ("q", q),
        ("dp", dp), ("dq", dq), ("invq", invq)]) ParsePkcs8 =
        .ok [("n", n), ("e", e), ("d", d), ("p", p), ("q", q),
          ("dp", dp), ("dq", dq), ("invq", invq)]) ∧
    (∀ p q g x : Nat,
      (∀ v ∈ [p, q, g, x], v < 256 ^ 10000) →
      Except.bind (ExportDsaPkcs8 [("p", p), ("q", q), ("g", g), ("x", x)]) ParsePkcs8 =
        .ok [("p", p), ("q", q), ("g", g), ("x", x)]) := by
  constructor
  · intro n e d p q dp dq invq hb
    have hbn : n < 256 ^ 10000 := hb n (by simp)
    have hbe : e < 256 ^ 10000 := hb e (by simp)
    have hbd : d < 256 ^ 10000 := hb d (by simp)
    have hbp : p < 256 ^ 10000 := hb p (by simp)
    have hbq : q < 256 ^ 10000 := hb q (by simp)
    have hbdp : dp < 256 ^ 10000 := hb dp (by simp)
    have hbdq : dq < 256 ^ 10000 := hb dq (by simp)
    have hbinvq : invq < 256 ^ 10000 := hb invq (by simp)
    have hlm : lookupMany [("n", n), ("e", e), ("d", d), ("p", p), ("q", q),
        ("dp", dp), ("dq", dq), ("invq", invq)] RSA_PARAMS =
        .ok [n, e, d, p, q, dp, dq, invq] := by rfl
    have hexp : ExportRsaPkcs8 [("n", n), ("e", e), ("d", d), ("p", p), ("q", q),
        ("dp", dp), ("dq", dq), ("invq", invq)] =
        .ok (Encode (encodeA (.seq [.int 0, .seq [.oid RSA_OID_bytes, .null],
          .octetString (encodeA (.seq [.int 0, .int n, .int e, .int d, .int p,
            .int q, .int dp, .int dq, .int invq]))]))) := by
      rw [ExportRsaPkcs8, hlm]
      rfl
    have h0 : (encodeA (Asn1.int 0)).length ≤ 2 * 1 + 6 :=
      encodeA_int_length_le 0 1 (by norm_num)
    have h1 : (encodeA (Asn1.int n)).length ≤ 2 * 10000 + 6 := encodeA_int_length_le n 10000 hbn
    have h2 : (encodeA (Asn1.int e)).length ≤ 2 * 10000 + 6 := encodeA_int_length_le e 10000 hbe
    have h3 : (encodeA (Asn1.int d)).length ≤ 2 * 10000 + 6 := encodeA_int_length_le d 10000 hbd
    have h4 : (encodeA (Asn1.int p)).length ≤ 2 * 10000 + 6 := encodeA_int_length_le p 10000 hbp
    have h5 : (encodeA (Asn1.int q)).length ≤ 2 * 10000 + 6 := encodeA_int_length_le q 10000 hbq
    have h6 : (encodeA (Asn1.int dp)).length ≤ 2 * 10000 + 6 :=
      encodeA_int_length_le dp 10000 hbdp
    have h7 : (encodeA (Asn1.int dq)).length ≤ 2 * 10000 + 6 :=
      encodeA_int_length_le dq 10000 hbdq
    have h8 : (encodeA (Asn1.int invq)).length ≤ 2 * 10000 + 6 :=
      encodeA_int_length_le invq 10000 hbinvq
    have hklist : (encodeList [Asn1.int 0, .int n, .int e, .int d, .int p, .int q,
        .int dp, .int dq, .int invq]).length ≤ 160056 := by
      simp only [encodeList, List.length_append, List.length_nil]
      omega
    have hkseq := encodeA_seq_length_le [Asn1.int 0, .int n, .int e, .int d, .int p, .int q,
      .int dp, .int dq, .int invq]
    have hkey_wf : wfA (Asn1.seq [.int 0, .int n, .int e, .int d, .int p, .int q,
        .int dp, .int dq, .int invq]) = true := by
      simp [wfA_seq, wfL_cons, wfL_nil, wfA_int]
    have hkey_good : goodA (Asn1.seq [.int 0, .int n, .int e, .int d, .int p, .int q,
        .int dp, .int dq, .int invq]) = true := by
      simp [goodA_seq, goodL_cons, goodL_nil, goodA_int]
    have hkey_bytes : ∀ b ∈ encodeA (Asn1.seq [.int 0, .int n, .int e, .int d, .int p,
        .int q, .int dp, .int dq, .int invq]), b < 256 :=
      byteOk_encodeA_of _ hkey_wf (lt_pow127_of_le (by omega))
    have hkeytop : decodeTop (encodeA (Asn1.seq [.int 0, .int n, .int e, .int d, .int p,
        .int q, .int dp, .int dq, .int invq])) =
        .ok (Asn1.seq [.int 0, .int n, .int e, .int d, .int p, .int q,
          .int dp, .int dq, .int invq]) :=
      decodeTop_encodeA _ hkey_good
    have hoid_len := encodeA_oid_length_le RSA_OID_bytes
    have hoid9 : RSA_OID_bytes.length = 9 := rfl
    have hnull_len := encodeA_null_length_le
    have halglist : (encodeList [Asn1.oid RSA_OID_bytes, Asn1.null]).length ≤ 22 := by
      simp only [encodeList, List.length_append, List.length_nil]
      omega
    have halg_len := encodeA_seq_length_le [Asn1.oid RSA_OID_bytes, Asn1.null]
    have hoct_len := encodeA_octet_length_le (encodeA (Asn1.seq [.int 0, .int n, .int e,
      .int d, .int p, .int q, .int dp, .int dq, .int invq]))
    have holist : (encodeList [Asn1.int 0, Asn1.seq [.oid RSA_OID_bytes, .null],
        Asn1.octetString (encodeA (Asn1.seq [.int 0, .int n, .int e, .int d, .int p,
          .int q, .int dp, .int dq, .int invq]))]).length ≤ 640286 := by
      simp only [encodeList, List.length_append, List.length_nil]
      omega
    have houter_seq := encodeA_seq_length_le [Asn1.int 0,
      Asn1.seq [.oid RSA_OID_bytes, .null],
      Asn1.octetString (encodeA (Asn1.seq [.int 0, .int n, .int e, .int d, .int p,
        .int q, .int dp, .int dq, .int invq]))]
    have houter_wf : wfA (Asn1.seq [Asn1.int 0, Asn1.seq [.oid RSA_OID_bytes, .null],
        Asn1.octetString (encodeA (Asn1.seq [.int 0, .int n, .int e, .int d, .int p,
          .int q, .int dp, .int dq, .int invq]))]) = true := by
      simp only [wfA_seq, wfL_cons, wfL_nil, wfA_int, wfA_null, Bool.and_eq_true,
        Bool.and_true, and_true, true_and]
      exact ⟨wfA_oid_of _ (by decide), wfA_octetString_of _ hkey_bytes⟩
    have houter_good : goodA (Asn1.seq [Asn1.int 0, Asn1.seq [.oid RSA_OID_bytes, .null],
        Asn1.octetString (encodeA (Asn1.seq [.int 0, .int n, .int e, .int d, .int p,
          .int q, .int dp, .int dq, .int invq]))]) = true := by
      simp only [goodA_seq, goodL_cons, goodL_nil, goodA_int, goodA_null,
        goodA_octetString, Bool.and_eq_true, Bool.and_true, and_true, true_and]
      exact goodA_oid_of _ (by decide)
    have houter_bytes : ∀ b ∈ encodeA (Asn1.seq [Asn1.int 0,
        Asn1.seq [.oid RSA_OID_bytes, .null],
        Asn1.octetString (encodeA (Asn1.seq [.int 0, .int n, .int e, .int d, .int p,
          .int q, .int dp, .int dq, .int invq]))]), b < 256 :=
      byteOk_encodeA_of _ houter_wf (lt_pow127_of_le (by omega))
    have hdec := Decode_Encode _ houter_bytes
    have htop := decodeTop_encodeA _ houter_good
    rw [hexp]
    simp only [Except.bind]
    simp [ParsePkcs8, hdec, htop, hkeytop, readInts, RSA_PARAMS]
  · intro p q g x hb
    have hbp : p < 256 ^ 10000 := hb p (by simp)
    have hbq : q < 256 ^ 10000 := hb q (by simp)
    have hbg : g < 256 ^ 10000 := hb g (by simp)
    have hbx : x < 256 ^ 10000 := hb x (by simp)
    have hlm : lookupMany [("p", p), ("q", q), ("g", g), ("x", x)] DSA_PARAMS =
        .ok [p, q, g] := by rfl
    have hexp : ExportDsaPkcs8 [("p", p), ("q", q), ("g", g), ("x", x)] =
        .ok (Encode (encodeA (.seq [.int 0,
          .seq [.oid DSA_OID_bytes, .seq [.int p, .int q, .int g]],
          .octetString (encodeA (.int x))]))) := by
      rw [ExportDsaPkcs8, hlm]
      rfl
    have h4 : (encodeA (Asn1.int p)).length ≤ 2 * 10000 + 6 := encodeA_int_length_le p 10000 hbp
    have h5 : (encodeA (Asn1.int q)).length ≤ 2 * 10000 + 6 := encodeA_int_length_le q 10000 hbq
    have h6 : (encodeA (Asn1.int g)).length ≤ 2 * 10000 + 6 := encodeA_int_length_le g 10000 hbg
    have h7 : (encodeA (Asn1.int x)).length ≤ 2 * 10000 + 6 := encodeA_int_length_le x 10000 hbx
    have h0 : (encodeA (Asn1.int 0)).length ≤ 2 * 1 + 6 :=
      encodeA_int_length_le 0 1 (by norm_num)
    have hxtop : decodeTop (encodeA (Asn1.int x)) = .ok (Asn1.int x) :=
      decodeTop_encodeA _ (goodA_int x)
    have hx_bytes : ∀ b ∈ encodeA (Asn1.int x), b < 256 :=
      byteOk_encodeA_of _ (wfA_int x) (lt_pow127_of_le (by omega))
    have hplist : (encodeList [Asn1.int p, .int q, .int g]).length ≤ 60018 := by
      simp only [encodeList, List.length_append, List.length_nil]
      omega
    have hpseq := encodeA_seq_length_le [Asn1.int p, .int q, .int g]
    have hoid_len := encodeA_oid_length_le DSA_OID_bytes
    have hoid7 : DSA_OID_bytes.length = 7 := rfl
    have halglist : (encodeList [Asn1.oid DSA_OID_bytes,
        Asn1.seq [.int p, .int q, .int g]]).length ≤ 120056 := by
      simp only [encodeList, List.length_append, List.length_nil]
      omega
    have halg_len := encodeA_seq_length_le [Asn1.oid DSA_OID_bytes,
      Asn1.seq [.int p, .int q, .int g]]
    have hoct_len := encodeA_octet_length_le (encodeA (Asn1.int x))
    have holist : (encodeList [Asn1.int 0,
        Asn1.seq [.oid DSA_OID_bytes, .seq [.int p, .int q, .int g]],
        Asn1.octetString (encodeA (Asn1.int x))]).length ≤ 280140 := by
      simp only [encodeList, List.length_append, List.length_nil]
      omega
    have houter_seq := encodeA_seq_length_le [Asn1.int 0,
      Asn1.seq [.oid DSA_OID_bytes, .seq [.int p, .int q, .int g]],
      Asn1.octetString (encodeA (Asn1.int x))]
    have houter_wf : wfA (Asn1.seq [Asn1.int 0,
        Asn1.seq [.oid DSA_OID_bytes, .seq [.int p, .int q, .int g]],
        Asn1.octetString (encodeA (Asn1.int x))]) = true := by
      simp only [wfA_seq, wfL_cons, wfL_nil, wfA_int, Bool.and_eq_true,
        Bool.and_true, and_true, true_and]
      exact ⟨wfA_oid_of _ (by decide), wfA_octetString_of _ hx_bytes⟩
    have houter_good : goodA (Asn1.seq [Asn1.int 0,
        Asn1.seq [.oid DSA_OID_bytes, .seq [.int p, .int q, .int g]],
        Asn1.octetString (encodeA (Asn1.int x))]) = true := by
      simp only [goodA_seq, goodL_cons, goodL_nil, goodA_int, goodA_octetString,
        Bool.and_eq_true, Bool.and_true, and_true, true_and]
      exact goodA_oid_of _ (by decide)
    have houter_bytes : ∀ b ∈ encodeA (Asn1.seq [Asn1.int 0,
        Asn1.seq [.oid DSA_OID_bytes, .seq [.int p, .int q, .int g]],
        Asn1.octetString (encodeA (Asn1.int x))]), b < 256 :=
      byteOk_encodeA_of _ houter_wf (lt_pow127_of_le (by omega))
    have hdec := Decode_Encode _ houter_bytes
    have htop := decodeTop_encodeA _ houter_good
    rw [hexp]
    simp only [Except.bind]
    simp [ParsePkcs8, hdec, htop, hxtop, readInts, DSA_PARAMS]
    decide

/-- Witness for C1: concrete small private keys round-trip for both
algorithms. -/
theorem C1_private_round_trip_witness :
    Except.bind (ExportRsaPkcs8 [("n", 2), ("e", 3), ("d", 5), ("p", 7), ("q", 11),
      ("dp", 13), ("dq", 17), ("invq", 19)]) ParsePkcs8 =
      .ok [("n", 2), ("e", 3), ("d", 5), ("p", 7), ("q", 11), ("dp", 13), ("dq", 17),
        ("invq", 19)] ∧
    Except.bind (ExportDsaPkcs8 [("p", 23), ("q", 11), ("g", 4), ("x", 7)]) ParsePkcs8 =
      .ok [("p", 23), ("q", 11), ("g", 4), ("x", 7)] := by
  have hpow : (256 : Nat) ≤ 256 ^ 10000 := by
    calc (256 : Nat) = 256 ^ 1 := by norm_num
      _ ≤ 256 ^ 10000 := Nat.pow_le_pow_right (by norm_num) (by norm_num)
  constructor
  · exact C1_private_round_trip.1 2 3 5 7 11 13 17 19 (by
      intro v hv
      simp at hv
      rcases hv with rfl | rfl | rfl | rfl | rfl | rfl | rfl | rfl <;> omega)
  · exact C1_private_round_trip.2 23 11 4 7 (by
      intro v hv
      simp at hv
      rcases hv with rfl | rfl | rfl | rfl <;> omega)

theorem encodeA_bitString_BytesToBin_length_le (bs : List Nat) (h : ∀ b ∈ bs, b < 256) :
    (encodeA (.bitString (BytesToBin bs))).length ≤ 2 * (bs.length + 1) + 2 := by
  simp only [encodeA]
  rw [bitContent_BytesToBin bs h]
  simpa using tlv_length_le 3 (0 :: bs)

/-- C2: public-key round trip: for every valid RSA public KeyParameterMap
`{n,e}` and every valid DSA public KeyParameterMap `{p,q,g,y}` (parameters up
to 80000 bits), parsing the bytes produced by the public-key export — which
wraps the key value in a BIT STRING inside the SubjectPublicKeyInfo
SEQUENCE — returns the identical parameter map, whose key shape identifies
the algorithm. -/
theorem C2_public_round_trip :
    (∀ n e : Nat, (∀ v ∈ [n, e], v < 256 ^ 10000) →
      Except.bind (ExportRsaX509 [("n", n), ("e", e)]) ParseX509 =
        .ok [("n", n), ("e", e)]) ∧
    (∀ p q g y : Nat, (∀ v ∈ [p, q, g, y], v < 256 ^ 10000) →
      Except.bind (ExportDsaX509 [("p", p), ("q", q), ("g", g), ("y", y)]) ParseX509 =
        .ok [("p", p), ("q", q), ("g", g), ("y", y)]) := by
  constructor
  · intro n e hb
    have hbn : n < 256 ^ 10000 := hb n (by simp)
    have hbe : e < 256 ^ 10000 := hb e (by simp)
    have hexp : ExportRsaX509 [("n", n), ("e", e)] =
        .ok (Encode (encodeA (.seq [.seq [.oid RSA_OID_bytes, .null],
          .bitString (BytesToBin (encodeA (.seq [.int n, .int e])))]))) := by
      rw [ExportRsaX509]
      rfl
    have h1 : (encodeA (Asn1.int n)).length ≤ 2 * 10000 + 6 := encodeA_int_length_le n 10000 hbn
    have h2 : (encodeA (Asn1.int e)).length ≤ 2 * 10000 + 6 := encodeA_int_length_le e 10000 hbe
    have hklist : (encodeList [Asn1.int n, .int e]).length ≤ 40012 := by
      simp only [encodeList, List.length_append, List.length_nil]
      omega
    have hkseq := encodeA_seq_length_le [Asn1.int n, .int e]
    have hkey_wf : wfA (Asn1.seq [.int n, .int e]) = true := by
      simp [wfA_seq, wfL_cons, wfL_nil, wfA_int]
    have hkey_good : goodA (Asn1.seq [.int n, .int e]) = true := by
      simp [goodA_seq, goodL_cons, goodL_nil, goodA_int]
    have hkey_bytes : ∀ b ∈ encodeA (Asn1.seq [.int n, .int e]), b < 256 :=
      byteOk_encodeA_of _ hkey_wf (lt_pow127_of_le (by omega))
    have hkeytop : decodeTop (encodeA (Asn1.seq [.int n, .int e])) =
        .ok (Asn1.seq [.int n, .int e]) := decodeTop_encodeA _ hkey_good
    have hbin : BinToBytes (BytesToBin (encodeA (Asn1.seq [.int n, .int e]))) =
        encodeA (Asn1.seq [.int n, .int e]) := BinToBytes_BytesToBin _ hkey_bytes
    have hoid_len := encodeA_oid_length_le RSA_OID_bytes
    have hoid9 : RSA_OID_bytes.length = 9 := rfl
    have hnull_len := encodeA_null_length_le
    have halglist : (encodeList [Asn1.oid RSA_OID_bytes, Asn1.null]).length ≤ 22 := by
      simp only [encodeList, List.length_append, List.length_nil]
      omega
    have halg_len := encodeA_seq_length_le [Asn1.oid RSA_OID_bytes, Asn1.null]
    have hbit_len := encodeA_bitString_BytesToBin_length_le
      (encodeA (Asn1.seq [.int n, .int e])) hkey_bytes
    have holist : (encodeList [Asn1.seq [.oid RSA_OID_bytes, .null],
        Asn1.bitString (BytesToBin (encodeA (Asn1.seq [.int n, .int e])))]).length
        ≤ 160104 := by
      simp only [encodeList, List.length_append, List.length_nil]
      omega
    have houter_seq := encodeA_seq_length_le [Asn1.seq [.oid RSA_OID_bytes, .null],
      Asn1.bitString (BytesToBin (encodeA (Asn1.seq [.int n, .int e])))]
    have houter_wf : wfA (Asn1.seq [Asn1.seq [.oid RSA_OID_bytes, .null],
        Asn1.bitString (BytesToBin (encodeA (Asn1.seq [.int n, .int e])))]) = true := by
      simp only [wfA_seq, wfL_cons, wfL_nil, wfA_null, wfA, Bool.and_eq_true,
        Bool.and_true, and_true, true_and]
      exact wfA_oid_of _ (by decide)
    have houter_good : goodA (Asn1.seq [Asn1.seq [.oid RSA_OID_bytes, .null],
        Asn1.bitString (BytesToBin (encodeA (Asn1.seq [.int n, .int e])))]) = true := by
      simp only [goodA_seq, goodL_cons, goodL_nil, goodA_null, Bool.and_eq_true,
        Bool.and_true, and_true, true_and]
      exact ⟨goodA_oid_of _ (by decide), goodA_bitString_BytesToBin _ hkey_bytes⟩
    have houter_bytes : ∀ b ∈ encodeA (Asn1.seq [Asn1.seq [.oid RSA_OID_bytes, .null],
        Asn1.bitString (BytesToBin (encodeA (Asn1.seq [.int n, .int e])))]), b < 256 :=
      byteOk_encodeA_of _ houter_wf (lt_pow127_of_le (by omega))
    have hdec := Decode_Encode _ houter_bytes
    have htop := decodeTop_encodeA _ houter_good
    rw [hexp]
    simp only [Except.bind]
    simp [ParseX509, hdec, htop, hbin, hkeytop]
  · intro p q g y hb
    have hbp : p < 256 ^ 10000 := hb p (by simp)
    have hbq : q < 256 ^ 10000 := hb q (by simp)
    have hbg : g < 256 ^ 10000 := hb g (by simp)
    have hby : y < 256 ^ 10000 := hb y (by simp)
    have hlm : lookupMany [("p", p), ("q", q), ("g", g), ("y", y)] DSA_PARAMS =
        .ok [p, q, g] := by rfl
    have hexp : ExportDsaX509 [("p", p), ("q", q), ("g", g), ("y", y)] =
        .ok (Encode (encodeA (.seq [.seq [.oid DSA_OID_bytes,
          .seq [.int p, .int q, .int g]],
          .bitString (BytesToBin (encodeA (.int y)))]))) := by
      rw [ExportDsaX509, hlm]
      rfl
    have h4 : (encodeA (Asn1.int p)).length ≤ 2 * 10000 + 6 := encodeA_int_length_le p 10000 hbp
    have h5 : (encodeA (Asn1.int q)).length ≤ 2 * 10000 + 6 := encodeA_int_length_le q 10000 hbq
    have h6 : (encodeA (Asn1.int g)).length ≤ 2 * 10000 + 6 := encodeA_int_length_le g 10000 hbg
    have h7 : (encodeA (Asn1.int y)).length ≤ 2 * 10000 + 6 := encodeA_int_length_le y 10000 hby
    have hy_bytes : ∀ b ∈ encodeA (Asn1.int y), b < 256 :=
      byteOk_encodeA_of _ (wfA_int y) (lt_pow127_of_le (by omega))
    have hytop : decodeTop (encodeA (Asn1.int y)) = .ok (Asn1.int y) :=
      decodeTop_encodeA _ (goodA_int y)
    have hbin : BinToBytes (BytesToBin (encodeA (Asn1.int y))) = encodeA (Asn1.int y) :=
      BinToBytes_BytesToBin _ hy_bytes
    have hplist : (encodeList [Asn1.int p, .int q, .int g]).length ≤ 60018 := by
      simp only [encodeList, List.length_append, List.length_nil]
      omega
    have hpseq := encodeA_seq_length_le [Asn1.int p, .int q, .int g]
    have hoid_len := encodeA_oid_length_le DSA_OID_bytes
    have hoid7 : DSA_OID_bytes.length = 7 := rfl
    have halglist : (encodeList [Asn1.oid DSA_OID_bytes,
        Asn1.seq [.int p, .int q, .int g]]).length ≤ 120056 := by
      simp only [encodeList, List.length_append, List.length_nil]
      omega
    have halg_len := encodeA_seq_length_le [Asn1.oid DSA_OID_bytes,
      Asn1.seq [.int p, .int q, .int g]]
    have hbit_len := encodeA_bitString_BytesToBin_length_le (encodeA (Asn1.int y)) hy_bytes
    have holist : (encodeList [Asn1.seq [.oid DSA_OID_bytes, .seq [.int p, .int q, .int g]],
        Asn1.bitString (BytesToBin (encodeA (Asn1.int y)))]).length ≤ 280190 := by
      simp only [encodeList, List.length_append, List.length_nil]
      omega
    have houter_seq := encodeA_seq_length_le
      [Asn1.seq [.oid DSA_OID_bytes, .seq [.int p, .int q, .int g]],
       Asn1.bitString (BytesToBin (encodeA (Asn1.int y)))]
    have houter_wf : wfA (Asn1.seq [Asn1.seq [.oid DSA_OID_bytes,
        .seq [.int p, .int q, .int g]],
        Asn1.bitString (BytesToBin (encodeA (Asn1.int y)))]) = true := by
      simp only [wfA_seq, wfL_cons, wfL_nil, wfA_int, wfA, Bool.and_eq_true,
        Bool.and_true, and_true, true_and]
      exact wfA_oid_of _ (by decide)
    have houter_good : goodA (Asn1.seq [Asn1.seq [.oid DSA_OID_bytes,
        .seq [.int p, .int q, .int g]],
        Asn1.bitString (BytesToBin (encodeA (Asn1.int y)))]) = true := by
      simp only [goodA_seq, goodL_cons, goodL_nil, goodA_int, Bool.and_eq_true,
        Bool.and_true, and_true, true_and]
      exact ⟨goodA_oid_of _ (by decide), goodA_bitString_BytesToBin _ hy_bytes⟩
    have houter_bytes : ∀ b ∈ encodeA (Asn1.seq [Asn1.seq [.oid DSA_OID_bytes,
        .seq [.int p, .int q, .int g]],
        Asn1.bitString (BytesToBin (encodeA (Asn1.int y)))]), b < 256 :=
      byteOk_encodeA_of _ houter_wf (lt_pow127_of_le (by omega))
    have hdec := Decode_Encode _ houter_bytes
    have htop := decodeTop_encodeA _ houter_good
    rw [hexp]
    simp only [Except.bind]
    simp [ParseX509, hdec, htop, hbin, hytop, mapInts]
    decide

/-- Witness for C2: concrete small public keys round-trip for both
algorithms. -/
theorem C2_public_round_trip_witness :
    Except.bind (ExportRsaX509 [("n", 33), ("e", 3)]) ParseX509 =
      .ok [("n", 33), ("e", 3)] ∧
    Except.bind (ExportDsaX509 [("p", 23), ("q", 11), ("g", 4), ("y", 8)]) ParseX509 =
      .ok [("p", 23), ("q", 11), ("g", 4), ("y", 8)] := by
  have hpow : (256 : Nat) ≤ 256 ^ 10000 := by
    calc (256 : Nat) = 256 ^ 1 := by norm_num
      _ ≤ 256 ^ 10000 := Nat.pow_le_pow_right (by norm_num) (by norm_num)
  constructor
  · exact C2_public_round_trip.1 33 3 (by
      intro v hv
      simp at hv
      rcases hv with rfl | rfl <;> omega)
  · exact C2_public_round_trip.2 23 11 4 8 (by
      intro v hv
      simp at hv
      rcases hv with rfl | rfl | rfl | rfl <;> omega)

/-- C5: structural rejection: for every byte-representable container,
`ParsePkcs8` fails with the malformed-encoding error when the outer PKCS8
SEQUENCE does not have exactly 3 top-level fields, or when the version field
(or, for RSA, the inner key version field) is not 0; and `ParseX509` fails
with the malformed-encoding error when the outer X.509 SEQUENCE does not
have exactly 2 top-level fields.  An added or removed top-level field always
changes the field count and therefore always fails. -/
theorem C5_structural_rejection :
    (∀ comps : List Asn1, goodA (.seq comps) = true →
      (∀ b ∈ encodeA (.seq comps), b < 256) → comps.length ≠ 3 →
      ParsePkcs8 (Encode (encodeA (.seq comps))) =
        .error (.keyczarError "Illegal PKCS8 String.")) ∧
    (∀ (v : Nat) (a b : Asn1), goodA (.seq [.int v, a, b]) = true →
      (∀ x ∈ encodeA (.seq [.int v, a, b]), x < 256) → v ≠ 0 →
      ParsePkcs8 (Encode (encodeA (.seq [.int v, a, b]))) =
        .error (.keyczarError "Unrecognized PKCS8 Version")) ∧
    (∀ (v : Nat) (rest : List Asn1), goodL rest = true →
      (∀ x ∈ encodeA (.seq [.int 0, .seq [.oid RSA_OID_bytes, .null],
        .octetString (encodeA (.seq (.int v :: rest)))]), x < 256) → v ≠ 0 →
      ParsePkcs8 (Encode (encodeA (.seq [.int 0, .seq [.oid RSA_OID_bytes, .null],
        .octetString (encodeA (.seq (.int v :: rest)))]))) =
        .error (.keyczarError "Unrecognized RSA Private Key Version")) ∧
    (∀ comps : List Asn1, goodA (.seq comps) = true →
      (∀ b ∈ encodeA (.seq comps), b < 256) → comps.length ≠ 2 →
      ParseX509 (Encode (encodeA (.seq comps))) =
        .error (.keyczarError "Illegal X.509 String.")) := by
  refine ⟨?_, ?_, ?_, ?_⟩
  · intro comps hg hbytes hlen
    have hdec := Decode_Encode _ hbytes
    have htop := decodeTop_encodeA _ hg
    simp [ParsePkcs8, hdec, htop, hlen]
  · intro v a b hg hbytes hv
    have hdec := Decode_Encode _ hbytes
    have htop := decodeTop_encodeA _ hg
    simp [ParsePkcs8, hdec, htop, hv]
  · intro v rest hrest hbytes hv
    have hdec := Decode_Encode _ hbytes
    have hkey_good : goodA (Asn1.seq (.int v :: rest)) = true := by
      simp [goodA_seq, goodL_cons, goodA_int, hrest]
    have hkeytop : decodeTop (encodeA (Asn1.seq (.int v :: rest))) =
        .ok (Asn1.seq (.int v :: rest)) := decodeTop_encodeA _ hkey_good
    have hg : goodA (Asn1.seq [.int 0, .seq [.oid RSA_OID_bytes, .null],
        .octetString (encodeA (.seq (.int v :: rest)))]) = true := by
      simp only [goodA_seq, goodL_cons, goodL_nil, goodA_int, goodA_null,
        goodA_octetString, Bool.and_eq_true, Bool.and_true, and_true, true_and]
      exact goodA_oid_of _ (by decide)
    have htop := decodeTop_encodeA _ hg
    simp [ParsePkcs8, hdec, htop, hkeytop, hv]
  · intro comps hg hbytes hlen
    have hdec := Decode_Encode _ hbytes
    have htop := decodeTop_encodeA _ hg
    simp [ParseX509, hdec, htop, hlen]

/-- Witness for C5: an empty outer SEQUENCE, a non-zero outer version, a
non-zero RSA inner version, and an empty X.509 SEQUENCE are each rejected. -/
theorem C5_structural_rejection_witness :
    ParsePkcs8 (Encode (encodeA (.seq []))) =
      .error (.keyczarError "Illegal PKCS8 String.") ∧
    ParsePkcs8 (Encode (encodeA (.seq [.int 1, .null, .null]))) =
      .error (.keyczarError "Unrecognized PKCS8 Version") ∧
    ParsePkcs8 (Encode (encodeA (.seq [.int 0, .seq [.oid RSA_OID_bytes, .null],
      .octetString (encodeA (.seq [.int 1]))]))) =
      .error (.keyczarError "Unrecognized RSA Private Key Version") ∧
    ParseX509 (Encode (encodeA (.seq []))) =
      .error (.keyczarError "Illegal X.509 String.") := by
  have hnil_len : (encodeList ([] : List Asn1)).length = 0 := by simp [encodeList]
  have hb0 : ∀ b ∈ encodeA (Asn1.seq []), b < 256 :=
    byteOk_encodeA_of _ (by simp [wfA_seq, wfL_nil]) (lt_pow127_of_le (by
      have := encodeA_seq_length_le []
      omega))
  have h1 : (encodeA (Asn1.int 1)).length ≤ 2 * 1 + 6 := encodeA_int_length_le 1 1 (by norm_num)
  have h00 : (encodeA (Asn1.int 0)).length ≤ 2 * 1 + 6 := encodeA_int_length_le 0 1 (by norm_num)
  have hnull := encodeA_null_length_le
  have hlist2 : (encodeList [Asn1.int 1, Asn1.null, Asn1.null]).length ≤ 12 := by
    simp only [encodeList, List.length_append, List.length_nil]
    omega
  have hb2 : ∀ x ∈ encodeA (Asn1.seq [.int 1, .null, .null]), x < 256 :=
    byteOk_encodeA_of _ (by simp [wfA_seq, wfL_cons, wfL_nil, wfA_int, wfA_null])
      (lt_pow127_of_le (by
        have := encodeA_seq_length_le [Asn1.int 1, Asn1.null, Asn1.null]
        omega))
  have hlisti : (encodeList [Asn1.int 1]).length ≤ 8 := by
    simp only [encodeList, List.length_append, List.length_nil]
    omega
  have hinner_len := encodeA_seq_length_le [Asn1.int 1]
  have hinner_wf : wfA (Asn1.seq [.int 1]) = true := by
    simp [wfA_seq, wfL_cons, wfL_nil, wfA_int]
  have hinner_bytes : ∀ b ∈ encodeA (Asn1.seq [.int 1]), b < 256 :=
    byteOk_encodeA_of _ hinner_wf (lt_pow127_of_le (by omega))
  have hoid_len := encodeA_oid_length_le RSA_OID_bytes
  have hoid9 : RSA_OID_bytes.length = 9 := rfl
  have halglist : (encodeList [Asn1.oid RSA_OID_bytes, Asn1.null]).length ≤ 22 := by
    simp only [encodeList, List.length_append, List.length_nil]
    omega
  have halg_len := encodeA_seq_length_le [Asn1.oid RSA_OID_bytes, Asn1.null]
  have hoct_len := encodeA_octet_length_le (encodeA (Asn1.seq [.int 1]))
  have holist : (encodeList [Asn1.int 0, Asn1.seq [.oid RSA_OID_bytes, .null],
      Asn1.octetString (encodeA (Asn1.seq [.int 1]))]).length ≤ 100 := by
    simp only [encodeList, List.length_append, List.length_nil]
    omega
  have houter3 := encodeA_seq_length_le [Asn1.int 0, Asn1.seq [.oid RSA_OID_bytes, .null],
    Asn1.octetString (encodeA (Asn1.seq [.int 1]))]
  have hb3 : ∀ x ∈ encodeA (Asn1.seq [.int 0, .seq [.oid RSA_OID_bytes, .null],
      .octetString (encodeA (.seq [.int 1]))]), x < 256 :=
    byteOk_encodeA_of _ (by
      simp only [wfA_seq, wfL_cons, wfL_nil, wfA_int, wfA_null, Bool.and_eq_true,
        Bool.and_true, and_true, true_and]
      exact ⟨wfA_oid_of _ (by decide), wfA_octetString_of _ hinner_bytes⟩)
      (lt_pow127_of_le (by omega))
  refine ⟨?_, ?_, ?_, ?_⟩
  · exact C5_structural_rejection.1 [] (by simp [goodA_seq, goodL_nil]) hb0 (by norm_num)
  · exact C5_structural_rejection.2.1 1 .null .null
      (by simp [goodA_seq, goodL_cons, goodL_nil, goodA_int, goodA_null]) hb2 (by norm_num)
  · exact C5_structural_rejection.2.2.1 1 [] (by simp [goodL_nil]) hb3 (by norm_num)
  · exact C5_structural_rejection.2.2.2 [] (by simp [goodA_seq, goodL_nil]) hb0 (by norm_num)

/-- C6: unsupported-algorithm rejection: for every well-formed container
whose algorithm object identifier is neither the RSA OID 1.2.840.113549.1.1.1
nor the DSA OID 1.2.840.10040.4.1 (that is, any other non-empty OID
content), both `ParsePkcs8` and `ParseX509` fail with the
unsupported-algorithm error rather than returning any parameter map. -/
theorem C6_unsupported_algorithm :
    (∀ (c : List Nat) (ap w : Asn1), c ≠ [] → c ≠ RSA_OID_bytes → c ≠ DSA_OID_bytes →
      goodA ap = true → goodA w = true →
      (∀ b ∈ encodeA (.seq [.int 0, .seq [.oid c, ap], .octetString (encodeA w)]), b < 256) →
      ParsePkcs8 (Encode (encodeA (.seq [.int 0, .seq [.oid c, ap],
        .octetString (encodeA w)]))) =
        .error (.keyczarError "Unrecognized AlgorithmIdentifier: not RSA/DSA")) ∧
    (∀ (c : List Nat) (ap w : Asn1), c ≠ [] → c ≠ RSA_OID_bytes → c ≠ DSA_OID_bytes →
      goodA ap = true → goodA w = true → (∀ b ∈ encodeA w, b < 256) →
      (∀ b ∈ encodeA (.seq [.seq [.oid c, ap],
        .bitString (BytesToBin (encodeA w))]), b < 256) →
      ParseX509 (Encode (encodeA (.seq [.seq [.oid c, ap],
        .bitString (BytesToBin (encodeA w))]))) =
        .error (.keyczarError "Unrecognized AlgorithmIdentifier: not RSA/DSA")) := by
  constructor
  · intro c ap w hce hcr hcd hgap hgw hbytes
    have hdec := Decode_Encode _ hbytes
    have hwtop := decodeTop_encodeA w hgw
    have hg : goodA (Asn1.seq [.int 0, .seq [.oid c, ap], .octetString (encodeA w)])
        = true := by
      simp only [goodA_seq, goodL_cons, goodL_nil, goodA_int, goodA_octetString,
        Bool.and_eq_true, Bool.and_true, and_true, true_and]
      exact ⟨goodA_oid_of _ hce, hgap⟩
    have htop := decodeTop_encodeA _ hg
    simp [ParsePkcs8, hdec, htop, hwtop, hcr, hcd]
  · intro c ap w hce hcr hcd hgap hgw hwbytes hbytes
    have hdec := Decode_Encode _ hbytes
    have hbin := BinToBytes_BytesToBin _ hwbytes
    have hwtop := decodeTop_encodeA w hgw
    have hg : goodA (Asn1.seq [.seq [.oid c, ap],
        .bitString (BytesToBin (encodeA w))]) = true := by
      simp only [goodA_seq, goodL_cons, goodL_nil, Bool.and_eq_true,
        Bool.and_true, and_true, true_and]
      exact ⟨⟨goodA_oid_of _ hce, hgap⟩, goodA_bitString_BytesToBin _ hwbytes⟩
    have htop := decodeTop_encodeA _ hg
    simp [ParseX509, hdec, htop, hbin, hwtop, hcr, hcd]

/-- Witness for C6: a container tagged with the OID 1.3 (content `[43]`) is
rejected by both parsers. -/
theorem C6_unsupported_algorithm_witness :
    ParsePkcs8 (Encode (encodeA (.seq [.int 0, .seq [.oid [43], .null],
      .octetString (encodeA (.int 5))]))) =
      .error (.keyczarError "Unrecognized AlgorithmIdentifier: not RSA/DSA") ∧
    ParseX509 (Encode (encodeA (.seq [.seq [.oid [43], .null],
      .bitString (BytesToBin (encodeA (.int 5)))]))) =
      .error (.keyczarError "Unrecognized AlgorithmIdentifier: not RSA/DSA") := by
  have h5 : (encodeA (Asn1.int 5)).length ≤ 2 * 1 + 6 := encodeA_int_length_le 5 1 (by norm_num)
  have h0 : (encodeA (Asn1.int 0)).length ≤ 2 * 1 + 6 := encodeA_int_length_le 0 1 (by norm_num)
  have h5b : ∀ b ∈ encodeA (Asn1.int 5), b < 256 :=
    byteOk_encodeA_of _ (wfA_int 5) (lt_pow127_of_le (by omega))
  have hoid_len := encodeA_oid_length_le [43]
  have hnull := encodeA_null_length_le
  have halglist : (encodeList [Asn1.oid [43], Asn1.null]).length ≤ 6 := by
    simp only [encodeList, List.length_append, List.length_nil, List.length_cons] at hoid_len ⊢
    omega
  have halg := encodeA_seq_length_le [Asn1.oid [43], Asn1.null]
  have hoct := encodeA_octet_length_le (encodeA (Asn1.int 5))
  have holist1 : (encodeList [Asn1.int 0, Asn1.seq [.oid [43], .null],
      Asn1.octetString (encodeA (Asn1.int 5))]).length ≤ 40 := by
    simp only [encodeList, List.length_append, List.length_nil]
    omega
  have houter1 := encodeA_seq_length_le [Asn1.int 0, Asn1.seq [.oid [43], .null],
    Asn1.octetString (encodeA (Asn1.int 5))]
  have hb1 : ∀ b ∈ encodeA (Asn1.seq [.int 0, .seq [.oid [43], .null],
      .octetString (encodeA (.int 5))]), b < 256 :=
    byteOk_encodeA_of _ (by
      simp only [wfA_seq, wfL_cons, wfL_nil, wfA_int, wfA_null, Bool.and_eq_true,
        Bool.and_true, and_true, true_and]
      exact ⟨wfA_oid_of _ (by decide), wfA_octetString_of _ h5b⟩)
      (lt_pow127_of_le (by omega))
  have hbit := encodeA_bitString_BytesToBin_length_le (encodeA (Asn1.int 5)) h5b
  have holist2 : (encodeList [Asn1.seq [.oid [43], .null],
      Asn1.bitString (BytesToBin (encodeA (Asn1.int 5)))]).length ≤ 34 := by
    simp only [encodeList, List.length_append, List.length_nil]
    omega
  have houter2 := encodeA_seq_length_le [Asn1.seq [.oid [43], .null],
    Asn1.bitString (BytesToBin (encodeA (Asn1.int 5)))]
  have hb2 : ∀ b ∈ encodeA (Asn1.seq [.seq [.oid [43], .null],
      .bitString (BytesToBin (encodeA (.int 5)))]), b < 256 :=
    byteOk_encodeA_of _ (by
      simp only [wfA_seq, wfL_cons, wfL_nil, wfA_null, wfA, Bool.and_eq_true,
        Bool.and_true, and_true, true_and]
      exact wfA_oid_of _ (by decide))
      (lt_pow127_of_le (by omega))
  constructor
  · exact C6_unsupported_algorithm.1 [43] .null (.int 5) (by decide) (by decide) (by decide)
      goodA_null (goodA_int 5) hb1
  · exact C6_unsupported_algorithm.2 [43] .null (.int 5) (by decide) (by decide) (by decide)
      goodA_null (goodA_int 5) h5b hb2

/-- Whether an export result, when successful, is base64 text. -/
def allB64 : Except Err String → Bool
  | .ok s => s.data.all (fun c => decide (c ∈ alphabet ∨ c = '='))
  | .error _ => true

theorem Encode_allB64 (bs : List Nat) :
    (Encode bs).data.all (fun c => decide (c ∈ alphabet ∨ c = '=')) = true := by
  rw [Encode, List.all_eq_true]
  intro c hc
  exact decide_eq_true (b64chunks_mem bs c hc)

theorem Encode_mem_b64 (bs : List Nat) : ∀ c ∈ (Encode bs).data, c ∈ alphabet ∨ c = '=' :=
  fun c hc => b64chunks_mem bs c hc

/-- C10: the base64 codec boundary: both parse operations base64-decode
first — any input whose space-stripped length is 1 mod 4 fails with the
Base64DecodingError before any DER structure is examined; all four export
operations return base64 text (alphabet characters and `'='` only) rather
than raw DER bytes; and missing `'='` padding is tolerated by re-adding it
before decoding. -/
theorem C10_base64_boundary :
    (∀ s : String, (s.data.filter (fun c => decide (c ≠ ' '))).length % 4 = 1 →
      ParsePkcs8 s = .error .base64DecodingError ∧
      ParseX509 s = .error .base64DecodingError) ∧
    (∀ ps : KeyParams, allB64 (ExportRsaPkcs8 ps) = true ∧
      allB64 (ExportDsaPkcs8 ps) = true ∧ allB64 (ExportRsaX509 ps) = true ∧
      allB64 (ExportDsaX509 ps) = true) ∧
    (∀ s : String,
      ((s.data.filter (fun c => decide (c ≠ ' '))).length % 4 = 2 →
        Decode s = b64decode (s.data.filter (fun c => decide (c ≠ ' ')) ++ ['=', '='])) ∧
      ((s.data.filter (fun c => decide (c ≠ ' '))).length % 4 = 3 →
        Decode s = b64decode (s.data.filter (fun c => decide (c ≠ ' ')) ++ ['=']))) := by
  refine ⟨?_, ?_, ?_⟩
  · intro s h
    have hd : Decode s = .error .base64DecodingError := by
      rw [Decode, if_pos h]
    exact ⟨by simp [ParsePkcs8, hd], by simp [ParseX509, hd]⟩
  · intro ps
    refine ⟨?_, ?_, ?_, ?_⟩
    · rcases hr : lookupMany ps RSA_PARAMS with e | vs
      · simp [allB64, ExportRsaPkcs8, hr]
      · simp [allB64, ExportRsaPkcs8, hr]
        exact Encode_mem_b64 _
    · rcases hr : lookupMany ps DSA_PARAMS with e | vs
      · simp [allB64, ExportDsaPkcs8, hr]
      · rcases hx : ps.lookup "x" with _ | xv
        · simp [allB64, ExportDsaPkcs8, hr, hx]
        · simp [allB64, ExportDsaPkcs8, hr, hx]
          exact Encode_mem_b64 _
    · rcases hn : ps.lookup "n" with _ | nv
      · simp [allB64, ExportRsaX509, hn]
      · rcases he : ps.lookup "e" with _ | ev
        · simp [allB64, ExportRsaX509, hn, he]
        · simp [allB64, ExportRsaX509, hn, he]
          exact Encode_mem_b64 _
    · rcases hr : lookupMany ps DSA_PARAMS with e | vs
      · simp [allB64, ExportDsaX509, hr]
      · rcases hy : ps.lookup "y" with _ | yv
        · simp [allB64, ExportDsaX509, hr, hy]
        · simp [allB64, ExportDsaX509, hr, hy]
          exact Encode_mem_b64 _
  · intro s
    constructor
    · intro h
      rw [Decode, if_neg (by omega), if_pos h]
    · intro h
      rw [Decode, if_neg (by omega), if_neg (by omega), if_pos h]

/-- Witness for C10: the one-character input `"a"` has space-stripped length
1 mod 4 and is rejected by both parsers; `"ab"` and `"abc"` get their
missing padding re-added. -/
theorem C10_base64_boundary_witness :
    (ParsePkcs8 "a" = .error .base64DecodingError ∧
      ParseX509 "a" = .error .base64DecodingError) ∧
    Decode "ab" = b64decode ("ab".data.filter (fun c => decide (c ≠ ' ')) ++ ['=', '=']) ∧
    Decode "abc" = b64decode ("abc".data.filter (fun c => decide (c ≠ ' ')) ++ ['=']) := by
  refine ⟨?_, ?_, ?_⟩
  · exact C10_base64_boundary.1 "a" (by decide)
  · exact (C10_base64_boundary.2.2 "ab").1 (by decide)
  · exact (C10_base64_boundary.2.2 "abc").2 (by decide)
